import Mathlib

/-!
# BVH construction and traversal (`Scripts/BVH.cpp`)

A shallow embedding of `BVHAccel` : the two recursive builders
(`recursiveBuild`, `recursiveBuildWithSAH`), the constructor, and the
nearest-hit traversal (`Intersect`, `getIntersection`).

Conventions of the embedding.

* `float`/`double` values are exact rationals (`ℚ`); `DBL_MAX` is the rational
  value of `std::numeric_limits<double>::max()`.
* A value of type `BVHBuildNode*` is a `BVHBuildNode` : `nil` is `nullptr`,
  `node bounds left right object` is a pointer to a node with those fields.
* Undefined behaviour (dereferencing `nullptr`, reading past a vector, and
  unbounded recursion) is the result `none`. The one exception is the
  conversion `(int)diff` of a value out of the range of `int`, which takes the
  value the x86-64 conversion gives (`castInt`).
* Everything `BVH.cpp` uses but does not define (`Bounds3`, `Object`,
  `Intersection()`, `std::sort`) is a field of `Externals`.
-/

namespace BVH

/-! ## Data model -/

/-- Three coordinates, as `Vector3f`. -/
structure Vector3f where
  x : ℚ
  y : ℚ
  z : ℚ
deriving DecidableEq

/-- The fields of `Ray` that `BVH.cpp` reads. -/
structure Ray where
  origin : Vector3f
  direction : Vector3f
  direction_inv : Vector3f
deriving DecidableEq

/-- An `Intersection` record : the flag and the distance that the traversal
reads, and the rest of the record (`coords`, `normal`, `obj`, `m`) as `hit`. -/
structure Intersection (H : Type) where
  happened : Bool
  distance : ℚ
  hit : H
deriving DecidableEq

/-- The type `std::array<int, 3>`. -/
structure Array3 where
  a0 : Int
  a1 : Int
  a2 : Int
deriving DecidableEq

/-- A value of type `BVHBuildNode*`. -/
inductive BVHBuildNode (B Obj : Type) where
  | nil : BVHBuildNode B Obj
  | node (bounds : B) (left right : BVHBuildNode B Obj) (object : Option Obj) :
      BVHBuildNode B Obj
deriving DecidableEq

/-- The enumeration `BVHAccel::SplitMethod`. -/
inductive SplitMethod where
  | MedianSplit
  | SAH
deriving DecidableEq

/-- The external collaborators of `BVH.cpp` : the operations of `Bounds3`, of
`Object`, the default `Intersection`, and `std::sort` with its contract (the
result is a rearrangement of the input, ordered by the comparator). -/
structure Externals (B Obj H : Type) where
  /-- The box `Bounds3()`. -/
  Bounds3 : B
  /-- The function `Union(Bounds3, Bounds3)`. -/
  Union : B → B → B
  /-- The function `Union(Bounds3, Vector3f)`. -/
  UnionPoint : B → Vector3f → B
  /-- The method `Bounds3::Centroid`. -/
  Centroid : B → Vector3f
  /-- The member `Bounds3::pMax`. -/
  pMax : B → Vector3f
  /-- The method `Bounds3::SurfaceArea`. -/
  SurfaceArea : B → ℚ
  /-- The method `Bounds3::maxExtent`. -/
  maxExtent : B → Int
  /-- The method `Bounds3::IntersectP(ray, invDir, dirIsNeg)`. -/
  IntersectP : B → Ray → Vector3f → Array3 → Bool
  /-- The method `Object::getBounds`. -/
  getBounds : Obj → B
  /-- The method `Object::getIntersection`. -/
  getIntersection : Obj → Ray → Intersection H
  /-- The distance field of `Intersection()`. -/
  defaultDistance : ℚ
  /-- The remaining fields of `Intersection()`. -/
  defaultHit : H
  /-- The algorithm `std::sort(begin, end, comp)`. -/
  sort : (Obj → Obj → Bool) → List Obj → List Obj
  sort_perm : ∀ (comp : Obj → Obj → Bool) (l : List Obj), (sort comp l).Perm l
  sort_sorted : ∀ (key : Obj → ℚ) (l : List Obj),
    (sort (fun f1 f2 => decide (key f1 < key f2)) l).Pairwise (fun a b => key a ≤ key b)

variable {B Obj H : Type}

/-- Modelled from the spec: the default constructor of `Intersection`
(`Intersection.hpp` is absent) gives the canonical no-hit value, with
`happened = false`. -/
def Intersection.default (E : Externals B Obj H) : Intersection H :=
  { happened := false, distance := E.defaultDistance, hit := E.defaultHit }

/-- Modelled from the spec: the constructor of `BVHBuildNode` (`BVH.hpp` is
absent) ; a new node holds no primitive reference until one is assigned. -/
abbrev BVHBuildNode.newObject : Option Obj := none

/-- The test `p == nullptr`. -/
def BVHBuildNode.isNull : BVHBuildNode B Obj → Bool
  | .nil => true
  | .node _ _ _ _ => false

/-- The access `p->bounds`. -/
def BVHBuildNode.bounds? : BVHBuildNode B Obj → Option B
  | .nil => none
  | .node b _ _ _ => some b

/-- The access `p->left`. -/
def BVHBuildNode.left? : BVHBuildNode B Obj → Option (BVHBuildNode B Obj)
  | .nil => none
  | .node _ l _ _ => some l

/-- The access `p->right`. -/
def BVHBuildNode.right? : BVHBuildNode B Obj → Option (BVHBuildNode B Obj)
  | .nil => none
  | .node _ _ r _ => some r

/-- The access `p->object`, `none` when the field is `nullptr`. -/
def BVHBuildNode.object? : BVHBuildNode B Obj → Option Obj
  | .nil => none
  | .node _ _ _ o => o

/-- The value `std::numeric_limits<double>::max()`. -/
def DBL_MAX : ℚ := (2 ^ 53 - 1) * 2 ^ 971

/-! ## Construction -/

/-- The loop `Bounds3 bounds; for (i ...) bounds = Union(bounds, objects[i]->getBounds());`. -/
def unionBounds (E : Externals B Obj H) (objects : List Obj) : B :=
  objects.foldl (fun bounds o => E.Union bounds (E.getBounds o)) E.Bounds3

/-- The `switch (dim)` of `recursiveBuildWithSAH` (lines 122-150) : the objects
after the sort on the `pMax` coordinate of the axis `bounds.maxExtent()`. -/
def sahSorted (E : Externals B Obj H) (objects : List Obj) : List Obj :=
  match E.maxExtent (unionBounds E objects) with
  | 0 => E.sort (fun f1 f2 =>
      decide ((E.pMax (E.getBounds f1)).x < (E.pMax (E.getBounds f2)).x)) objects
  | 1 => E.sort (fun f1 f2 =>
      decide ((E.pMax (E.getBounds f1)).y < (E.pMax (E.getBounds f2)).y)) objects
  | 2 => E.sort (fun f1 f2 =>
      decide ((E.pMax (E.getBounds f1)).z < (E.pMax (E.getBounds f2)).z)) objects
  | _ => objects

/-- The expression compared with `surfaceArea` on line 165, for the candidate
`partitionIndex` : `bounds` is the parent box, `objects` the sorted vector. -/
def sahCost (E : Externals B Obj H) (bounds : B) (objects : List Obj)
    (partitionIndex : Nat) : ℚ :=
  let bound1 := unionBounds E (objects.take (partitionIndex + 1))
  let bound2 := unionBounds E (objects.drop (partitionIndex + 1))
  E.SurfaceArea bound1 / E.SurfaceArea bounds * (partitionIndex : ℚ)
    + E.SurfaceArea bound2 / E.SurfaceArea bounds
      * ((objects.length - partitionIndex : Nat) : ℚ)

/-- One iteration of the loop of lines 155-170 on the pair
`(partIndex, surfaceArea)`. -/
def sahStep (E : Externals B Obj H) (bounds : B) (objects : List Obj)
    (st : Nat × ℚ) (partitionIndex : Nat) : Nat × ℚ :=
  if sahCost E bounds objects partitionIndex < st.2 then
    (partitionIndex, sahCost E bounds objects partitionIndex)
  else st

/-- The loop of lines 152-170 : `partitionIndex` runs over
`0 .. objects.size() - 2`, starting from `partIndex = 0` and
`surfaceArea = DBL_MAX`. -/
def sahLoop (E : Externals B Obj H) (bounds : B) (objects : List Obj) : Nat × ℚ :=
  (List.range (objects.length - 1)).foldl (sahStep E bounds objects) (0, DBL_MAX)

/-- The value of `partIndex` after the loop, for the unsorted input `objects`. -/
def sahPartIndex (E : Externals B Obj H) (objects : List Obj) : Nat :=
  (sahLoop E (unionBounds E objects) (sahSorted E objects)).1

/-- The vector `leftShapes` of line 172. -/
def sahLeftShapes (E : Externals B Obj H) (objects : List Obj) : List Obj :=
  (sahSorted E objects).take (sahPartIndex E objects + 1)

/-- The vector `rightShapes` of line 173. -/
def sahRightShapes (E : Externals B Obj H) (objects : List Obj) : List Obj :=
  (sahSorted E objects).drop (sahPartIndex E objects + 1)

theorem sahSorted_perm (E : Externals B Obj H) (objects : List Obj) :
    (sahSorted E objects).Perm objects := by
  unfold sahSorted
  split
  · exact E.sort_perm _ _
  · exact E.sort_perm _ _
  · exact E.sort_perm _ _
  · exact List.Perm.refl _

theorem sahSorted_length (E : Externals B Obj H) (objects : List Obj) :
    (sahSorted E objects).length = objects.length :=
  (sahSorted_perm E objects).length_eq

theorem sahLoop_fold_lt (E : Externals B Obj H) (bounds : B) (objects : List Obj)
    (m : Nat) (st : Nat × ℚ) (ks : List Nat) (hst : st.1 < m) (hks : ∀ k ∈ ks, k < m) :
    (ks.foldl (sahStep E bounds objects) st).1 < m := by
  induction ks generalizing st with
  | nil => simpa using hst
  | cons k ks ih =>
    simp only [List.foldl_cons]
    apply ih
    · unfold sahStep
      split
      · exact hks k (List.mem_cons_self _ _)
      · exact hst
    · intro j hj
      exact hks j (List.mem_cons_of_mem _ hj)

theorem sahPartIndex_lt (E : Externals B Obj H) (objects : List Obj)
    (h : 2 ≤ objects.length) : sahPartIndex E objects + 1 < objects.length := by
  have hlen := sahSorted_length E objects
  have key : (sahLoop E (unionBounds E objects) (sahSorted E objects)).1
      < objects.length - 1 := by
    unfold sahLoop
    apply sahLoop_fold_lt
    · simp only; omega
    · intro k hk
      rw [hlen] at hk
      simpa using hk
  unfold sahPartIndex
  omega

/-- The function `BVHAccel::recursiveBuildWithSAH` (lines 96-182). On an empty
vector the loop bound
`objects.size() - 1` wraps around and `objects[0]` is read out of range. -/
def recursiveBuildWithSAH (E : Externals B Obj H) :
    List Obj → Option (BVHBuildNode B Obj)
  | [] => none
  | [o0] => some (.node (E.getBounds o0) .nil .nil (some o0))
  | [o0, o1] => do
    let left ← recursiveBuildWithSAH E [o0]
    let right ← recursiveBuildWithSAH E [o1]
    let lb ← left.bounds?
    let rb ← right.bounds?
    pure (.node (E.Union lb rb) left right BVHBuildNode.newObject)
  | o0 :: o1 :: o2 :: rest => do
    let bounds := unionBounds E (o0 :: o1 :: o2 :: rest)
    let left ← recursiveBuildWithSAH E (sahLeftShapes E (o0 :: o1 :: o2 :: rest))
    let right ← recursiveBuildWithSAH E (sahRightShapes E (o0 :: o1 :: o2 :: rest))
    pure (.node bounds left right BVHBuildNode.newObject)
termination_by objects => objects.length
decreasing_by
  · simp
  · simp
  · have h := sahPartIndex_lt E (o0 :: o1 :: o2 :: rest) (by simp)
    have hl := sahSorted_length E (o0 :: o1 :: o2 :: rest)
    simp only [sahLeftShapes, List.length_take]
    omega
  · have h := sahPartIndex_lt E (o0 :: o1 :: o2 :: rest) (by simp)
    have hl := sahSorted_length E (o0 :: o1 :: o2 :: rest)
    simp only [sahRightShapes, List.length_drop]
    omega

/-- The loop of lines 52-55 : the box of the centroids of the objects. -/
def centroidBounds (E : Externals B Obj H) (objects : List Obj) : B :=
  objects.foldl (fun cb o => E.UnionPoint cb (E.Centroid (E.getBounds o))) E.Bounds3

/-- The `switch (dim)` of `recursiveBuild` (lines 56-76) : the objects after the
sort on the centroid coordinate of the axis `centroidBounds.maxExtent()`. -/
def medianSorted (E : Externals B Obj H) (objects : List Obj) : List Obj :=
  match E.maxExtent (centroidBounds E objects) with
  | 0 => E.sort (fun f1 f2 =>
      decide ((E.Centroid (E.getBounds f1)).x < (E.Centroid (E.getBounds f2)).x)) objects
  | 1 => E.sort (fun f1 f2 =>
      decide ((E.Centroid (E.getBounds f1)).y < (E.Centroid (E.getBounds f2)).y)) objects
  | 2 => E.sort (fun f1 f2 =>
      decide ((E.Centroid (E.getBounds f1)).z < (E.Centroid (E.getBounds f2)).z)) objects
  | _ => objects

/-- The vector `leftshapes` of line 82, `[beginning, middling)`. -/
def medianLeftShapes (E : Externals B Obj H) (objects : List Obj) : List Obj :=
  (medianSorted E objects).take ((medianSorted E objects).length / 2)

/-- The vector `rightshapes` of line 83, `[middling, ending)`. -/
def medianRightShapes (E : Externals B Obj H) (objects : List Obj) : List Obj :=
  (medianSorted E objects).drop ((medianSorted E objects).length / 2)

theorem medianSorted_perm (E : Externals B Obj H) (objects : List Obj) :
    (medianSorted E objects).Perm objects := by
  unfold medianSorted
  split
  · exact E.sort_perm _ _
  · exact E.sort_perm _ _
  · exact E.sort_perm _ _
  · exact List.Perm.refl _

theorem medianSorted_length (E : Externals B Obj H) (objects : List Obj) :
    (medianSorted E objects).length = objects.length :=
  (medianSorted_perm E objects).length_eq

/-- The function `BVHAccel::recursiveBuild` (lines 28-94). The box `bounds` of
lines 33-35 is computed and never read. On an empty vector both halves are
empty again and the recursion does not end. -/
def recursiveBuild (E : Externals B Obj H) :
    List Obj → Option (BVHBuildNode B Obj)
  | [] => none
  | [o0] => some (.node (E.getBounds o0) .nil .nil (some o0))
  | [o0, o1] => do
    let left ← recursiveBuild E [o0]
    let right ← recursiveBuild E [o1]
    let lb ← left.bounds?
    let rb ← right.bounds?
    pure (.node (E.Union lb rb) left right BVHBuildNode.newObject)
  | o0 :: o1 :: o2 :: rest => do
    let left ← recursiveBuild E (medianLeftShapes E (o0 :: o1 :: o2 :: rest))
    let right ← recursiveBuild E (medianRightShapes E (o0 :: o1 :: o2 :: rest))
    let lb ← left.bounds?
    let rb ← right.bounds?
    pure (.node (E.Union lb rb) left right BVHBuildNode.newObject)
termination_by objects => objects.length
decreasing_by
  · simp
  · simp
  · have hl := medianSorted_length E (o0 :: o1 :: o2 :: rest)
    simp only [medianLeftShapes, List.length_take, List.length_cons] at hl ⊢
    omega
  · have hl := medianSorted_length E (o0 :: o1 :: o2 :: rest)
    simp only [medianRightShapes, List.length_drop, List.length_cons] at hl ⊢
    omega

/-- The members of `BVHAccel`. -/
structure BVHAccel (B Obj : Type) where
  maxPrimsInNode : Int
  splitMethod : SplitMethod
  primitives : List Obj
  root : BVHBuildNode B Obj

/-- Modelled from the spec: the member declaration of `root` (`BVH.hpp` is
absent) ; before the body of the constructor runs the root is none. -/
def BVHAccel.initialRoot : BVHBuildNode B Obj := .nil

/-- The constructor `BVHAccel::BVHAccel` (lines 5-15), up to the timing
report. -/
def BVHAccel.new (E : Externals B Obj H) (p : List Obj) (maxPrimsInNode : Int)
    (splitMethod : SplitMethod) : Option (BVHAccel B Obj) :=
  if p.isEmpty then
    some { maxPrimsInNode := min 255 maxPrimsInNode, splitMethod := splitMethod,
           primitives := p, root := BVHAccel.initialRoot }
  else do
    let root ← recursiveBuildWithSAH E p
    pure { maxPrimsInNode := min 255 maxPrimsInNode, splitMethod := splitMethod,
           primitives := p, root := root }

/-- The conversion `(int)diff` of lines 19-21, for a `double` that holds the
whole number `diff`. The type `int` has 32 bits : inside
`-2147483648 .. 2147483647` the conversion keeps the value ; outside, C++
leaves it undefined, and the value here is the one the x86-64 conversion
gives, `INT_MIN = -2147483648`. -/
def castInt (diff : Int) : Int :=
  if -2147483648 ≤ diff ∧ diff < 2147483648 then diff else -2147483648

/-- The value `hrs` of line 19, `(int)diff / 3600`, for `diff` elapsed
seconds. Division of `int` truncates. -/
def timeHrs (diff : Int) : Int := (castInt diff).tdiv 3600

/-- The value `mins` of line 20, `((int)diff / 60) - (hrs * 60)`. -/
def timeMins (diff : Int) : Int := (castInt diff).tdiv 60 - timeHrs diff * 60

/-- The value `secs` of line 21, `(int)diff - (hrs * 3600) - (mins * 60)`. -/
def timeSecs (diff : Int) : Int :=
  castInt diff - timeHrs diff * 3600 - timeMins diff * 60

/-! ## Traversal -/

/-- The array `dirIsNeg` of lines 196-204. -/
def dirIsNeg (ray : Ray) : Array3 :=
  { a0 := if ray.direction.x < 0 then 0 else 1
    a1 := if ray.origin.y < 0 then 0 else 1
    a2 := if ray.origin.z > 0 then 0 else 1 }

/-- The call `b.IntersectP(ray, ray.direction_inv, dirIsNeg)` as
`getIntersection` makes it. -/
def slabTest (E : Externals B Obj H) (ray : Ray) (b : B) : Bool :=
  E.IntersectP b ray ray.direction_inv (dirIsNeg ray)

/-- The expression returned on lines 231-232. -/
def closer (leftIntersection rightIntersection : Intersection H) : Intersection H :=
  if leftIntersection.happened
      && (!rightIntersection.happened
          || decide (leftIntersection.distance < rightIntersection.distance)) then
    leftIntersection
  else rightIntersection

/-- The function `BVHAccel::getIntersection` (lines 193-233). -/
def getIntersection (E : Externals B Obj H) (ray : Ray) :
    BVHBuildNode B Obj → Option (Intersection H)
  | .nil => none
  | .node bounds left right object =>
    if !slabTest E ray bounds then
      some { Intersection.default E with happened := false }
    else if left.isNull && right.isNull && slabTest E ray bounds then
      match object with
      | none => none
      | some o => some (E.getIntersection o ray)
    else do
      let leftIntersection ←
        match left.bounds? with
        | none => some (Intersection.default E)
        | some lb =>
          if slabTest E ray lb then getIntersection E ray left
          else some (Intersection.default E)
      let rightIntersection ←
        match right.bounds? with
        | none => some (Intersection.default E)
        | some rb =>
          if slabTest E ray rb then getIntersection E ray right
          else some (Intersection.default E)
      pure (closer leftIntersection rightIntersection)

/-- The value that `getIntersection` gives to `leftIntersection` (lines
219-224) when `c` is the left child, and to `rightIntersection` (lines
226-229) when `c` is the right child. -/
def childIntersection (E : Externals B Obj H) (ray : Ray) (c : BVHBuildNode B Obj) :
    Option (Intersection H) :=
  match c.bounds? with
  | none => some (Intersection.default E)
  | some cb =>
    if slabTest E ray cb then getIntersection E ray c
    else some (Intersection.default E)

/-- The function `BVHAccel::Intersect` (lines 184-191). -/
def BVHAccel.Intersect (E : Externals B Obj H) (acc : BVHAccel B Obj) (ray : Ray) :
    Option (Intersection H) :=
  if acc.root.isNull then some (Intersection.default E)
  else getIntersection E ray acc.root

/-- What an instrumented run records : a call of `Bounds3::IntersectP` on a
box, or a call of `Object::getIntersection` on a primitive. -/
inductive Event (B Obj : Type) where
  | slab (b : B) : Event B Obj
  | primitive (o : Obj) : Event B Obj
deriving DecidableEq

/-- The function `getIntersection` instrumented : the same control flow, and
next to the result the calls made, in order. The conjunctions short-circuit, so
a box test behind a failed pointer test is not made. -/
def getIntersectionTraced (E : Externals B Obj H) (ray : Ray) :
    BVHBuildNode B Obj → Option (Intersection H × List (Event B Obj))
  | .nil => none
  | .node bounds left right object =>
    if !slabTest E ray bounds then
      some ({ Intersection.default E with happened := false }, [.slab bounds])
    else if left.isNull && right.isNull && slabTest E ray bounds then
      match object with
      | none => none
      | some o => some (E.getIntersection o ray,
          [.slab bounds, .slab bounds, .primitive o])
    else do
      let l ←
        match left.bounds? with
        | none => some (Intersection.default E, [])
        | some lb =>
          if slabTest E ray lb then
            (getIntersectionTraced E ray left).map (fun r => (r.1, .slab lb :: r.2))
          else some (Intersection.default E, [.slab lb])
      let r ←
        match right.bounds? with
        | none => some (Intersection.default E, [])
        | some rb =>
          if slabTest E ray rb then
            (getIntersectionTraced E ray right).map (fun r => (r.1, .slab rb :: r.2))
          else some (Intersection.default E, [.slab rb])
      pure (closer l.1 r.1,
        .slab bounds :: ((if left.isNull && right.isNull then [.slab bounds] else [])
          ++ (l.2 ++ r.2)))

/-- The function `Intersect` instrumented. -/
def BVHAccel.IntersectTraced (E : Externals B Obj H) (acc : BVHAccel B Obj) (ray : Ray) :
    Option (Intersection H × List (Event B Obj)) :=
  if acc.root.isNull then some (Intersection.default E, [])
  else getIntersectionTraced E ray acc.root

/-! ## Properties of trees, in the words of the specification -/

/-- The primitives stored at the leaves of a tree, left to right. A leaf is a
node whose two children are both none. -/
def leafObjects : BVHBuildNode B Obj → List Obj
  | .nil => []
  | .node _ l r o =>
    if l.isNull && r.isNull then o.toList else leafObjects l ++ leafObjects r

/-- The number of leaves of a tree. -/
def numLeaves : BVHBuildNode B Obj → Nat
  | .nil => 0
  | .node _ l r _ => if l.isNull && r.isNull then 1 else numLeaves l + numLeaves r

/-- Every node is a leaf (no child, a primitive) or internal (two children,
no primitive). -/
def LeafOrInternal : BVHBuildNode B Obj → Prop
  | .nil => True
  | .node _ l r o =>
    ((l.isNull = true ∧ r.isNull = true ∧ o.isSome = true)
      ∨ (l.isNull = false ∧ r.isNull = false ∧ o = none))
    ∧ LeafOrInternal l ∧ LeafOrInternal r

/-- The laws of box union : associative, commutative, idempotent, with the box
`Bounds3()` as identity. -/
structure UnionLaws (E : Externals B Obj H) : Prop where
  assoc : ∀ a b c, E.Union (E.Union a b) c = E.Union a (E.Union b c)
  comm : ∀ a b, E.Union a b = E.Union b a
  idem : ∀ a, E.Union a a = a
  identity : ∀ a, E.Union E.Bounds3 a = a

/-- Every leaf has the bounds of its primitive and every other node the union
of the bounds of its two children. -/
def BoundsInvariant (E : Externals B Obj H) : BVHBuildNode B Obj → Prop
  | .nil => True
  | .node b l r o =>
    (if l.isNull && r.isNull then ∃ p, o = some p ∧ b = E.getBounds p
     else ∃ lb rb, l.bounds? = some lb ∧ r.bounds? = some rb ∧ b = E.Union lb rb)
    ∧ BoundsInvariant E l ∧ BoundsInvariant E r

/-- The cost of the split index `k` as the specification writes it :
`(bound1.surfaceArea / parentSurfaceArea) * (k + 1)
  + (bound2.surfaceArea / parentSurfaceArea) * (n - k - 1)`. -/
def specCost (E : Externals B Obj H) (bounds : B) (objects : List Obj) (k : Nat) : ℚ :=
  E.SurfaceArea (unionBounds E (objects.take (k + 1))) / E.SurfaceArea bounds
      * ((k + 1 : Nat) : ℚ)
    + E.SurfaceArea (unionBounds E (objects.drop (k + 1))) / E.SurfaceArea bounds
      * ((objects.length - k - 1 : Nat) : ℚ)

/-- The sign vector as the specification writes it : `sign[i] = 0` if
`direction[i] < 0`, else `1`. -/
def specDirIsNeg (ray : Ray) : Array3 :=
  { a0 := if ray.direction.x < 0 then 0 else 1
    a1 := if ray.direction.y < 0 then 0 else 1
    a2 := if ray.direction.z < 0 then 0 else 1 }

/-- The leaves of a tree, each with the boxes on the way from the root down to
the leaf itself, and with its primitive reference. -/
def leafPaths : BVHBuildNode B Obj → List (List B × Option Obj)
  | .nil => []
  | .node b l r o =>
    if l.isNull && r.isNull then [([b], o)]
    else (leafPaths l ++ leafPaths r).map (fun p => (b :: p.1, p.2))

/-- The surviving leaves for a ray : those whose own box and all of whose
ancestors' boxes pass the slab test. -/
def survivingLeaves (E : Externals B Obj H) (ray : Ray) (t : BVHBuildNode B Obj) :
    List (List B × Option Obj) :=
  (leafPaths t).filter (fun p => p.1.all (slabTest E ray))

/-- A surviving leaf whose primitive reports a hit at distance `d`. -/
def SurvivingHit (E : Externals B Obj H) (ray : Ray) (t : BVHBuildNode B Obj)
    (d : ℚ) : Prop :=
  ∃ p ∈ survivingLeaves E ray t, ∃ o, p.2 = some o
    ∧ (E.getIntersection o ray).happened = true
    ∧ (E.getIntersection o ray).distance = d

/-- The record `res` reports the nearest of the hits `S` : it is a hit exactly
when there is one, and then its distance is one of theirs and no larger than
any of them. -/
def NearestOf (S : ℚ → Prop) (res : Intersection H) : Prop :=
  (res.happened = true ↔ ∃ d, S d)
  ∧ (res.happened = true → S res.distance ∧ ∀ d, S d → res.distance ≤ d)

/-- The primitive intersection routines that an instrumented run called. -/
def primitiveCalls : List (Event B Obj) → List Obj
  | [] => []
  | .slab _ :: es => primitiveCalls es
  | .primitive o :: es => o :: primitiveCalls es

/-- The depth of a tree : the number of edges on the longest way from the root
down to a leaf. -/
def depth : BVHBuildNode B Obj → Nat
  | .nil => 0
  | .node _ l r _ => if l.isNull && r.isNull then 0 else 1 + max (depth l) (depth r)

/-- The coordinate of a vector on the axis `dim` : `x` for 0, `y` for 1, `z`
for 2. -/
def coord (v : Vector3f) (dim : Int) : ℚ :=
  match dim with
  | 0 => v.x
  | 1 => v.y
  | _ => v.z

/-! ## A concrete set of collaborators

Boxes with rational corners, primitives that are stubs with a canned answer,
and insertion sort for `std::sort`. -/

namespace Stub

/-- Modelled from the spec: `Bounds3` (`Bounds3.hpp` is absent) is two corner
points, the component-wise minimum and maximum. -/
structure Box where
  pMin : Vector3f
  pMax : Vector3f
deriving DecidableEq

/-- Modelled from the spec: a box value (`Bounds3.hpp` is absent) ; `none` is
the box `Bounds3()`, which holds no point. -/
abbrev Bounds := Option Box

/-- Component-wise minimum. -/
def vmin (a b : Vector3f) : Vector3f := ⟨min a.x b.x, min a.y b.y, min a.z b.z⟩

/-- Component-wise maximum. -/
def vmax (a b : Vector3f) : Vector3f := ⟨max a.x b.x, max a.y b.y, max a.z b.z⟩

/-- Modelled from the spec: the union of two boxes (`Bounds3.hpp` is absent),
the smallest box containing both operands. -/
def Union : Bounds → Bounds → Bounds
  | none, b => b
  | some a, none => some a
  | some a, some b => some ⟨vmin a.pMin b.pMin, vmax a.pMax b.pMax⟩

/-- Modelled from the spec: the union of a box and a point (`Bounds3.hpp` is
absent). -/
def UnionPoint (b : Bounds) (p : Vector3f) : Bounds := Union b (some ⟨p, p⟩)

/-- The vector from the minimum to the maximum corner. -/
def Diagonal (b : Box) : Vector3f :=
  ⟨b.pMax.x - b.pMin.x, b.pMax.y - b.pMin.y, b.pMax.z - b.pMin.z⟩

/-- Modelled from the spec: the centroid of a box (`Bounds3.hpp` is absent). -/
def Centroid : Bounds → Vector3f
  | none => ⟨0, 0, 0⟩
  | some b => ⟨(b.pMin.x + b.pMax.x) / 2, (b.pMin.y + b.pMax.y) / 2,
      (b.pMin.z + b.pMax.z) / 2⟩

/-- The maximum corner. -/
def pMax : Bounds → Vector3f
  | none => ⟨0, 0, 0⟩
  | some b => b.pMax

/-- Modelled from the spec: the surface area of a box (`Bounds3.hpp` is
absent). -/
def SurfaceArea : Bounds → ℚ
  | none => 0
  | some b =>
    2 * ((Diagonal b).x * (Diagonal b).y + (Diagonal b).x * (Diagonal b).z
      + (Diagonal b).y * (Diagonal b).z)

/-- Modelled from the spec: the dominant-extent axis of a box (`Bounds3.hpp`
is absent). -/
def maxExtent : Bounds → Int
  | none => 0
  | some b =>
    if (Diagonal b).x > (Diagonal b).y ∧ (Diagonal b).x > (Diagonal b).z then 0
    else if (Diagonal b).y > (Diagonal b).z then 1
    else 2

/-- Modelled from the spec: the ray-slab test (`Bounds3.hpp` is absent),
parameterised by the inverse direction and the per-axis sign flags. -/
def IntersectP (b : Bounds) (ray : Ray) (invDir : Vector3f) (dirIsNeg : Array3) : Bool :=
  match b with
  | none => false
  | some b =>
    let x1 := (b.pMin.x - ray.origin.x) * invDir.x
    let x2 := (b.pMax.x - ray.origin.x) * invDir.x
    let y1 := (b.pMin.y - ray.origin.y) * invDir.y
    let y2 := (b.pMax.y - ray.origin.y) * invDir.y
    let z1 := (b.pMin.z - ray.origin.z) * invDir.z
    let z2 := (b.pMax.z - ray.origin.z) * invDir.z
    let xlo := if dirIsNeg.a0 = 0 then x2 else x1
    let xhi := if dirIsNeg.a0 = 0 then x1 else x2
    let ylo := if dirIsNeg.a1 = 0 then y2 else y1
    let yhi := if dirIsNeg.a1 = 0 then y1 else y2
    let zlo := if dirIsNeg.a2 = 0 then z2 else z1
    let zhi := if dirIsNeg.a2 = 0 then z1 else z2
    decide (max xlo (max ylo zlo) ≤ min xhi (min yhi zhi)) && decide (0 ≤ min xhi (min yhi zhi))

/-- A primitive stub : its box and the answer its intersection routine gives. -/
structure Primitive where
  bounds : Box
  answer : Intersection Unit
deriving DecidableEq

/-- Insertion sort in the place of `std::sort`. -/
def sort (comp : Primitive → Primitive → Bool) (l : List Primitive) : List Primitive :=
  l.insertionSort (fun a b => comp b a = false)

theorem sort_perm (comp : Primitive → Primitive → Bool) (l : List Primitive) :
    (sort comp l).Perm l :=
  List.perm_insertionSort _ l

theorem sort_sorted (key : Primitive → ℚ) (l : List Primitive) :
    (sort (fun f1 f2 => decide (key f1 < key f2)) l).Pairwise
      (fun a b => key a ≤ key b) := by
  haveI : IsTotal Primitive (fun a b => decide (key b < key a) = false) :=
    ⟨fun a b => by simpa using le_total (key a) (key b)⟩
  haveI : IsTrans Primitive (fun a b => decide (key b < key a) = false) :=
    ⟨fun a b c hab hbc => by
      simp only [decide_eq_false_iff_not, not_lt] at hab hbc ⊢
      exact le_trans hab hbc⟩
  have h := List.sorted_insertionSort (fun a b => decide (key b < key a) = false) l
  exact List.Pairwise.imp (fun {a b} hab => by simpa using hab) h

/-- The concrete collaborators. -/
def ext : Externals Bounds Primitive Unit where
  Bounds3 := none
  Union := Union
  UnionPoint := UnionPoint
  Centroid := Centroid
  pMax := pMax
  SurfaceArea := SurfaceArea
  maxExtent := maxExtent
  IntersectP := IntersectP
  getBounds := fun o => some o.bounds
  getIntersection := fun o _ => o.answer
  defaultDistance := DBL_MAX
  defaultHit := ()
  sort := sort
  sort_perm := sort_perm
  sort_sorted := sort_sorted

/-- The axis-aligned cube with minimum corner `(x, y, z)` and side `s`. -/
def cube (x y z s : ℚ) : Box := ⟨⟨x, y, z⟩, ⟨x + s, y + s, z + s⟩⟩

/-- A stub primitive with box `b` that reports a hit at distance `d`. -/
def hitAt (b : Box) (d : ℚ) : Primitive := ⟨b, ⟨true, d, ()⟩⟩

/-- A stub primitive with box `b` that reports no hit. -/
def miss (b : Box) : Primitive := ⟨b, ⟨false, DBL_MAX, ()⟩⟩

/-- Three boxes in a row along `x` : a cube of side 4 at the origin, a unit cube
touching it, and a unit cube far to the right. -/
def threeBoxes : List Primitive :=
  [miss (cube 0 0 0 4), miss (cube 4 0 0 1), miss (cube 15 0 0 1)]

/-- The unit cube at the origin, `n` times. -/
def sameBoxes (n : Nat) : List Primitive := List.replicate n (miss (cube 0 0 0 1))

/-- A ray from `(-1, 0, -1)` in the direction `(1, 1, 1)`. -/
def rayDiagonal : Ray :=
  { origin := ⟨-1, 0, -1⟩, direction := ⟨1, 1, 1⟩, direction_inv := ⟨1, 1, 1⟩ }

/-- A unit cube that `rayDiagonal` crosses, for the parameters 1 to 2. -/
def boxOnRay : Box := cube 0 1 0 1

/-- A unit cube that `rayDiagonal` passes by. -/
def boxOffRay : Box := cube 4 1 0 1

/-- A tree of two leaves : a primitive on the ray that reports a hit at
distance 1 and a primitive off the ray that would report one at distance 9. -/
def twoLeafTree : BVHBuildNode Bounds Primitive :=
  .node (some ⟨⟨0, 1, 0⟩, ⟨5, 2, 1⟩⟩)
    (.node (some boxOnRay) .nil .nil (some (hitAt boxOnRay 1)))
    (.node (some boxOffRay) .nil .nil (some (hitAt boxOffRay 9))) none

/-- An accelerator whose root is `twoLeafTree`. -/
def twoLeafAccel : BVHAccel Bounds Primitive :=
  { maxPrimsInNode := 1, splitMethod := SplitMethod.SAH,
    primitives := [hitAt boxOnRay 1, hitAt boxOffRay 9], root := twoLeafTree }

end Stub

/-! ## Construction : unfolding and induction -/

theorem recursiveBuildWithSAH_one (E : Externals B Obj H) (o0 : Obj) :
    recursiveBuildWithSAH E [o0] = some (.node (E.getBounds o0) .nil .nil (some o0)) := by
  rw [recursiveBuildWithSAH]

theorem recursiveBuildWithSAH_two (E : Externals B Obj H) (o0 o1 : Obj) :
    recursiveBuildWithSAH E [o0, o1]
      = some (.node (E.Union (E.getBounds o0) (E.getBounds o1))
          (.node (E.getBounds o0) .nil .nil (some o0))
          (.node (E.getBounds o1) .nil .nil (some o1)) none) := by
  rw [recursiveBuildWithSAH]
  simp [recursiveBuildWithSAH_one, BVHBuildNode.bounds?]

theorem recursiveBuildWithSAH_many (E : Externals B Obj H) (objects : List Obj)
    (h : 3 ≤ objects.length) :
    recursiveBuildWithSAH E objects
      = (recursiveBuildWithSAH E (sahLeftShapes E objects)).bind (fun left =>
          (recursiveBuildWithSAH E (sahRightShapes E objects)).bind (fun right =>
            some (.node (unionBounds E objects) left right none))) := by
  match objects, h with
  | o0 :: o1 :: o2 :: rest, _ =>
    rw [recursiveBuildWithSAH]
    rfl
  | [], h0 => simp at h0
  | [_], h0 => simp at h0
  | [_, _], h0 => simp at h0

theorem sahLeftShapes_length (E : Externals B Obj H) (objects : List Obj)
    (h : 3 ≤ objects.length) :
    (sahLeftShapes E objects).length = sahPartIndex E objects + 1 := by
  have h1 := sahPartIndex_lt E objects (by omega)
  have h2 := sahSorted_length E objects
  simp only [sahLeftShapes, List.length_take]
  omega

theorem sahRightShapes_length (E : Externals B Obj H) (objects : List Obj) :
    (sahRightShapes E objects).length = objects.length - (sahPartIndex E objects + 1) := by
  have h2 := sahSorted_length E objects
  simp only [sahRightShapes, List.length_drop]
  omega

theorem sahShapes_perm (E : Externals B Obj H) (objects : List Obj) :
    (sahLeftShapes E objects ++ sahRightShapes E objects).Perm objects := by
  unfold sahLeftShapes sahRightShapes
  rw [List.take_append_drop]
  exact sahSorted_perm E objects

/-- Induction over the calls of `recursiveBuildWithSAH` : a property of
(input, result) that holds for one object, for two, and passes from the two
groups to the whole, holds for every non-empty input, and a result exists. -/
theorem recursiveBuildWithSAH_induction (E : Externals B Obj H)
    (P : List Obj → BVHBuildNode B Obj → Prop)
    (h1 : ∀ o0, P [o0] (.node (E.getBounds o0) .nil .nil (some o0)))
    (h2 : ∀ o0 o1, P [o0, o1] (.node (E.Union (E.getBounds o0) (E.getBounds o1))
          (.node (E.getBounds o0) .nil .nil (some o0))
          (.node (E.getBounds o1) .nil .nil (some o1)) none))
    (h3 : ∀ objects left right, 3 ≤ objects.length →
      recursiveBuildWithSAH E (sahLeftShapes E objects) = some left →
      recursiveBuildWithSAH E (sahRightShapes E objects) = some right →
      P (sahLeftShapes E objects) left → P (sahRightShapes E objects) right →
      P objects (.node (unionBounds E objects) left right none))
    (objects : List Obj) (hne : objects ≠ []) :
    ∃ t, recursiveBuildWithSAH E objects = some t ∧ P objects t := by
  generalize hn : objects.length = n
  induction n using Nat.strong_induction_on generalizing objects with
  | _ n ih =>
    subst hn
    match objects, hne with
    | [o0], _ => exact ⟨_, recursiveBuildWithSAH_one E o0, h1 o0⟩
    | [o0, o1], _ => exact ⟨_, recursiveBuildWithSAH_two E o0 o1, h2 o0 o1⟩
    | o0 :: o1 :: o2 :: rest, _ =>
      have h3len : 3 ≤ (o0 :: o1 :: o2 :: rest).length := by simp
      have hl := sahLeftShapes_length E _ h3len
      have hr := sahRightShapes_length E (o0 :: o1 :: o2 :: rest)
      have hp := sahPartIndex_lt E (o0 :: o1 :: o2 :: rest) (by omega)
      obtain ⟨left, hleft, hPl⟩ := ih (sahLeftShapes E (o0 :: o1 :: o2 :: rest)).length
        (by omega) (sahLeftShapes E (o0 :: o1 :: o2 :: rest))
        (List.ne_nil_of_length_pos (by omega)) rfl
      obtain ⟨right, hright, hPr⟩ := ih (sahRightShapes E (o0 :: o1 :: o2 :: rest)).length
        (by omega) (sahRightShapes E (o0 :: o1 :: o2 :: rest))
        (List.ne_nil_of_length_pos (by omega)) rfl
      refine ⟨_, ?_, h3 _ left right h3len hleft hright hPl hPr⟩
      rw [recursiveBuildWithSAH_many E _ h3len, hleft, hright]
      rfl

theorem recursiveBuildWithSAH_isNull (E : Externals B Obj H) (objects : List Obj)
    (t : BVHBuildNode B Obj) (h : recursiveBuildWithSAH E objects = some t) :
    t.isNull = false := by
  match objects with
  | [] => rw [recursiveBuildWithSAH] at h; simp at h
  | [o0] =>
    rw [recursiveBuildWithSAH_one] at h
    injection h with h; subst h; rfl
  | [o0, o1] =>
    rw [recursiveBuildWithSAH_two] at h
    injection h with h; subst h; rfl
  | o0 :: o1 :: o2 :: rest =>
    rw [recursiveBuildWithSAH_many E _ (by simp)] at h
    simp only [Option.bind_eq_some] at h
    obtain ⟨l, _, r, _, hnode⟩ := h
    injection hnode with hnode; subst hnode; rfl

theorem recursiveBuild_one (E : Externals B Obj H) (o0 : Obj) :
    recursiveBuild E [o0] = some (.node (E.getBounds o0) .nil .nil (some o0)) := by
  rw [recursiveBuild]

theorem recursiveBuild_two (E : Externals B Obj H) (o0 o1 : Obj) :
    recursiveBuild E [o0, o1]
      = some (.node (E.Union (E.getBounds o0) (E.getBounds o1))
          (.node (E.getBounds o0) .nil .nil (some o0))
          (.node (E.getBounds o1) .nil .nil (some o1)) none) := by
  rw [recursiveBuild]
  simp [recursiveBuild_one, BVHBuildNode.bounds?]

theorem recursiveBuild_many (E : Externals B Obj H) (objects : List Obj)
    (h : 3 ≤ objects.length) :
    recursiveBuild E objects
      = (recursiveBuild E (medianLeftShapes E objects)).bind (fun left =>
          (recursiveBuild E (medianRightShapes E objects)).bind (fun right =>
            left.bounds?.bind (fun lb => right.bounds?.bind (fun rb =>
              some (.node (E.Union lb rb) left right none))))) := by
  match objects, h with
  | o0 :: o1 :: o2 :: rest, _ =>
    rw [recursiveBuild]
    rfl
  | [], h0 => simp at h0
  | [_], h0 => simp at h0
  | [_, _], h0 => simp at h0

theorem medianLeftShapes_length (E : Externals B Obj H) (objects : List Obj) :
    (medianLeftShapes E objects).length = objects.length / 2 := by
  have h2 := medianSorted_length E objects
  simp only [medianLeftShapes, List.length_take]
  omega

theorem medianRightShapes_length (E : Externals B Obj H) (objects : List Obj) :
    (medianRightShapes E objects).length = objects.length - objects.length / 2 := by
  have h2 := medianSorted_length E objects
  simp only [medianRightShapes, List.length_drop]
  omega

theorem medianShapes_perm (E : Externals B Obj H) (objects : List Obj) :
    (medianLeftShapes E objects ++ medianRightShapes E objects).Perm objects := by
  unfold medianLeftShapes medianRightShapes
  rw [List.take_append_drop]
  exact medianSorted_perm E objects

theorem recursiveBuild_isNull (E : Externals B Obj H) (objects : List Obj)
    (t : BVHBuildNode B Obj) (h : recursiveBuild E objects = some t) :
    t.isNull = false := by
  match objects with
  | [] => rw [recursiveBuild] at h; simp at h
  | [o0] =>
    rw [recursiveBuild_one] at h
    injection h with h; subst h; rfl
  | [o0, o1] =>
    rw [recursiveBuild_two] at h
    injection h with h; subst h; rfl
  | o0 :: o1 :: o2 :: rest =>
    rw [recursiveBuild_many E _ (by simp)] at h
    simp only [Option.bind_eq_some] at h
    obtain ⟨l, _, r, _, lb, _, rb, _, hnode⟩ := h
    injection hnode with hnode; subst hnode; rfl

/-- Induction over the calls of `recursiveBuild`, as for
`recursiveBuildWithSAH`. -/
theorem recursiveBuild_induction (E : Externals B Obj H)
    (P : List Obj → BVHBuildNode B Obj → Prop)
    (h1 : ∀ o0, P [o0] (.node (E.getBounds o0) .nil .nil (some o0)))
    (h2 : ∀ o0 o1, P [o0, o1] (.node (E.Union (E.getBounds o0) (E.getBounds o1))
          (.node (E.getBounds o0) .nil .nil (some o0))
          (.node (E.getBounds o1) .nil .nil (some o1)) none))
    (h3 : ∀ objects left right lb rb, 3 ≤ objects.length →
      recursiveBuild E (medianLeftShapes E objects) = some left →
      recursiveBuild E (medianRightShapes E objects) = some right →
      left.bounds? = some lb → right.bounds? = some rb →
      P (medianLeftShapes E objects) left → P (medianRightShapes E objects) right →
      P objects (.node (E.Union lb rb) left right none))
    (objects : List Obj) (hne : objects ≠ []) :
    ∃ t, recursiveBuild E objects = some t ∧ P objects t := by
  generalize hn : objects.length = n
  induction n using Nat.strong_induction_on generalizing objects with
  | _ n ih =>
    subst hn
    match objects, hne with
    | [o0], _ => exact ⟨_, recursiveBuild_one E o0, h1 o0⟩
    | [o0, o1], _ => exact ⟨_, recursiveBuild_two E o0 o1, h2 o0 o1⟩
    | o0 :: o1 :: o2 :: rest, _ =>
      have h3len : 3 ≤ (o0 :: o1 :: o2 :: rest).length := by simp
      have hl := medianLeftShapes_length E (o0 :: o1 :: o2 :: rest)
      have hr := medianRightShapes_length E (o0 :: o1 :: o2 :: rest)
      obtain ⟨left, hleft, hPl⟩ := ih (medianLeftShapes E (o0 :: o1 :: o2 :: rest)).length
        (by omega) (medianLeftShapes E (o0 :: o1 :: o2 :: rest))
        (List.ne_nil_of_length_pos (by omega)) rfl
      obtain ⟨right, hright, hPr⟩ := ih (medianRightShapes E (o0 :: o1 :: o2 :: rest)).length
        (by omega) (medianRightShapes E (o0 :: o1 :: o2 :: rest))
        (List.ne_nil_of_length_pos (by omega)) rfl
      have hln := recursiveBuild_isNull E _ _ hleft
      have hrn := recursiveBuild_isNull E _ _ hright
      obtain ⟨lb, hlb⟩ : ∃ lb, left.bounds? = some lb := by
        cases left with
        | nil => simp [BVHBuildNode.isNull] at hln
        | node b _ _ _ => exact ⟨b, rfl⟩
      obtain ⟨rb, hrb⟩ : ∃ rb, right.bounds? = some rb := by
        cases right with
        | nil => simp [BVHBuildNode.isNull] at hrn
        | node b _ _ _ => exact ⟨b, rfl⟩
      refine ⟨_, ?_, h3 _ left right lb rb h3len hleft hright hlb hrb hPl hPr⟩
      rw [recursiveBuild_many E _ h3len, hleft, hright]
      simp [hlb, hrb]

theorem leafObjects_internal (b : B) (l r : BVHBuildNode B Obj) (o : Option Obj)
    (hl : l.isNull = false) :
    leafObjects (.node b l r o) = leafObjects l ++ leafObjects r := by
  simp [leafObjects, hl]

theorem numLeaves_internal (b : B) (l r : BVHBuildNode B Obj) (o : Option Obj)
    (hl : l.isNull = false) :
    numLeaves (.node b l r o) = numLeaves l + numLeaves r := by
  simp [numLeaves, hl]

theorem UnionLaws.identity_right {E : Externals B Obj H} (hU : UnionLaws E) (a : B) :
    E.Union a E.Bounds3 = a := by
  rw [hU.comm, hU.identity]

theorem foldl_union_eq {E : Externals B Obj H} (hU : UnionLaws E) (objects : List Obj)
    (a : B) :
    objects.foldl (fun bounds o => E.Union bounds (E.getBounds o)) a
      = E.Union a (unionBounds E objects) := by
  unfold unionBounds
  induction objects generalizing a with
  | nil => simp [hU.identity_right]
  | cons x l ih =>
    simp only [List.foldl_cons]
    rw [ih (E.Union a (E.getBounds x)), ih (E.Union E.Bounds3 (E.getBounds x)),
      hU.identity, hU.assoc]

theorem unionBounds_append {E : Externals B Obj H} (hU : UnionLaws E) (l1 l2 : List Obj) :
    unionBounds E (l1 ++ l2) = E.Union (unionBounds E l1) (unionBounds E l2) := by
  have h := foldl_union_eq hU l2 (unionBounds E l1)
  unfold unionBounds at h ⊢
  rw [List.foldl_append]
  exact h

theorem unionBounds_perm {E : Externals B Obj H} (hU : UnionLaws E) {l1 l2 : List Obj}
    (h : l1.Perm l2) : unionBounds E l1 = unionBounds E l2 := by
  unfold unionBounds
  apply List.Perm.foldl_eq' h
  intro x _ y _ z
  rw [hU.assoc, hU.assoc, hU.comm (E.getBounds x)]

/-- What `recursiveBuildWithSAH` returns has the union of the boxes of its
input as bounds, and the bounds of every node agree with those below it. -/
theorem recursiveBuildWithSAH_bounds {E : Externals B Obj H} (hU : UnionLaws E)
    (objects : List Obj) (hne : objects ≠ []) :
    ∃ t, recursiveBuildWithSAH E objects = some t
      ∧ t.bounds? = some (unionBounds E objects) ∧ BoundsInvariant E t := by
  refine recursiveBuildWithSAH_induction E
    (fun objs t => t.bounds? = some (unionBounds E objs) ∧ BoundsInvariant E t)
    ?_ ?_ ?_ objects hne
  · intro o0
    simp [BVHBuildNode.bounds?, unionBounds, hU.identity, BoundsInvariant,
      BVHBuildNode.isNull]
  · intro o0 o1
    simp [BVHBuildNode.bounds?, unionBounds, hU.identity, BoundsInvariant,
      BVHBuildNode.isNull]
  · intro objs left right _ hleft hright hPl hPr
    have hln := recursiveBuildWithSAH_isNull E _ _ hleft
    refine ⟨rfl, ?_, hPl.2, hPr.2⟩
    simp only [hln, Bool.false_and, Bool.false_eq_true, if_false]
    refine ⟨_, _, hPl.1, hPr.1, ?_⟩
    rw [← unionBounds_append hU]
    exact (unionBounds_perm hU (sahShapes_perm E objs)).symm

namespace Stub

theorem unionLaws : UnionLaws ext where
  assoc := by
    intro a b c
    cases a <;> cases b <;> cases c <;>
      simp [ext, Union, vmin, vmax, min_assoc, max_assoc]
  comm := by
    intro a b
    cases a <;> cases b <;> simp [ext, Union, vmin, vmax, min_comm, max_comm]
  idem := by
    intro a
    cases a <;> simp [ext, Union, vmin, vmax]
  identity := by
    intro a
    cases a <;> simp [ext, Union]

end Stub

namespace Stub

theorem threeBoxes_bounds :
    unionBounds ext threeBoxes = some ⟨⟨0, 0, 0⟩, ⟨16, 4, 4⟩⟩ := by
  simp [unionBounds, threeBoxes, ext, Union, miss, cube, vmin, vmax]
  norm_num

theorem threeBoxes_sorted : sahSorted ext threeBoxes = threeBoxes := by
  unfold sahSorted
  rw [threeBoxes_bounds]
  simp [ext, maxExtent, Diagonal, sort, threeBoxes, pMax, miss, cube,
    List.insertionSort, List.orderedInsert]
  norm_num

end Stub

/-! ## The claims -/

/-- C1 : for a non-empty list of primitives, both `recursiveBuildWithSAH` and
`recursiveBuild` return a tree, the primitives at its leaves are a
rearrangement of the input list, and it has as many leaves as there are input
primitives. -/
theorem leaves_are_permutation_of_input (E : Externals B Obj H) (objects : List Obj)
    (hne : objects ≠ []) :
    (∃ t, recursiveBuildWithSAH E objects = some t
        ∧ (leafObjects t).Perm objects ∧ numLeaves t = objects.length)
    ∧ (∃ t, recursiveBuild E objects = some t
        ∧ (leafObjects t).Perm objects ∧ numLeaves t = objects.length) := by
  constructor
  · refine recursiveBuildWithSAH_induction E
      (fun objs t => (leafObjects t).Perm objs ∧ numLeaves t = objs.length)
      ?_ ?_ ?_ objects hne
    · intro o0
      simp [leafObjects, numLeaves, BVHBuildNode.isNull]
    · intro o0 o1
      simp [leafObjects, numLeaves, BVHBuildNode.isNull]
    · intro objs left right h3 hleft hright hPl hPr
      have hln := recursiveBuildWithSAH_isNull E _ _ hleft
      rw [leafObjects_internal _ _ _ _ hln, numLeaves_internal _ _ _ _ hln]
      refine ⟨(hPl.1.append hPr.1).trans (sahShapes_perm E objs), ?_⟩
      rw [hPl.2, hPr.2, ← List.length_append]
      exact (sahShapes_perm E objs).length_eq
  · refine recursiveBuild_induction E
      (fun objs t => (leafObjects t).Perm objs ∧ numLeaves t = objs.length)
      ?_ ?_ ?_ objects hne
    · intro o0
      simp [leafObjects, numLeaves, BVHBuildNode.isNull]
    · intro o0 o1
      simp [leafObjects, numLeaves, BVHBuildNode.isNull]
    · intro objs left right lb rb h3 hleft hright _ _ hPl hPr
      have hln := recursiveBuild_isNull E _ _ hleft
      rw [leafObjects_internal _ _ _ _ hln, numLeaves_internal _ _ _ _ hln]
      refine ⟨(hPl.1.append hPr.1).trans (medianShapes_perm E objs), ?_⟩
      rw [hPl.2, hPr.2, ← List.length_append]
      exact (medianShapes_perm E objs).length_eq

/-- C2 : for a non-empty list of primitives, `recursiveBuildWithSAH` returns a
tree in which every node is either a leaf, with no child and a primitive
reference, or an internal node, with both children and no primitive
reference. -/
theorem every_node_leaf_or_internal (E : Externals B Obj H) (objects : List Obj)
    (hne : objects ≠ []) :
    ∃ t, recursiveBuildWithSAH E objects = some t ∧ t.isNull = false
      ∧ LeafOrInternal t := by
  refine recursiveBuildWithSAH_induction E
    (fun _ t => t.isNull = false ∧ LeafOrInternal t) ?_ ?_ ?_ objects hne
  · intro o0
    simp [LeafOrInternal, BVHBuildNode.isNull]
  · intro o0 o1
    simp [LeafOrInternal, BVHBuildNode.isNull]
  · intro objs left right _ _ _ hPl hPr
    refine ⟨rfl, Or.inr ⟨hPl.1, hPr.1, rfl⟩, hPl.2, hPr.2⟩

/-- Witness of C1 on three boxes. -/
theorem leaves_are_permutation_of_input_witness :
    Stub.threeBoxes ≠ []
    ∧ ((∃ t, recursiveBuildWithSAH Stub.ext Stub.threeBoxes = some t
        ∧ (leafObjects t).Perm Stub.threeBoxes
        ∧ numLeaves t = Stub.threeBoxes.length)
      ∧ (∃ t, recursiveBuild Stub.ext Stub.threeBoxes = some t
        ∧ (leafObjects t).Perm Stub.threeBoxes
        ∧ numLeaves t = Stub.threeBoxes.length)) :=
  ⟨by simp [Stub.threeBoxes],
   leaves_are_permutation_of_input Stub.ext Stub.threeBoxes (by simp [Stub.threeBoxes])⟩

/-- Witness of C2 on three boxes. -/
theorem every_node_leaf_or_internal_witness :
    Stub.threeBoxes ≠ []
    ∧ ∃ t, recursiveBuildWithSAH Stub.ext Stub.threeBoxes = some t ∧ t.isNull = false
      ∧ LeafOrInternal t :=
  ⟨by simp [Stub.threeBoxes],
   every_node_leaf_or_internal Stub.ext Stub.threeBoxes (by simp [Stub.threeBoxes])⟩

/-- C3 : for a non-empty list of primitives, and box union associative,
commutative and idempotent with the default box as identity, the constructor
builds a root whose bounds are the union of the bounds of all the input
primitives. -/
theorem root_bounds_are_union_of_primitives (E : Externals B Obj H) (hU : UnionLaws E)
    (p : List Obj) (hne : p ≠ []) (maxPrimsInNode : Int) (splitMethod : SplitMethod) :
    ∃ acc, BVHAccel.new E p maxPrimsInNode splitMethod = some acc
      ∧ acc.root.bounds? = some (unionBounds E p) := by
  obtain ⟨t, ht, hb, _⟩ := recursiveBuildWithSAH_bounds hU p hne
  refine ⟨{ maxPrimsInNode := min 255 maxPrimsInNode, splitMethod := splitMethod,
            primitives := p, root := t }, ?_, hb⟩
  have hemp : p.isEmpty = false := by
    cases p with
    | nil => exact absurd rfl hne
    | cons _ _ => rfl
  simp [BVHAccel.new, hemp, ht]

/-- Witness of C3 on three boxes. -/
theorem root_bounds_are_union_of_primitives_witness :
    UnionLaws Stub.ext ∧ Stub.threeBoxes ≠ []
    ∧ ∃ acc, BVHAccel.new Stub.ext Stub.threeBoxes 1 SplitMethod.SAH = some acc
      ∧ acc.root.bounds? = some (unionBounds Stub.ext Stub.threeBoxes) :=
  ⟨Stub.unionLaws, by simp [Stub.threeBoxes],
   root_bounds_are_union_of_primitives Stub.ext Stub.unionLaws Stub.threeBoxes
     (by simp [Stub.threeBoxes]) 1 SplitMethod.SAH⟩

/-- C4 : for a non-empty list of primitives, and box union associative,
commutative and idempotent with the default box as identity, in the tree that
`recursiveBuildWithSAH` returns every internal node's bounds are the union of
its two children's bounds and every leaf's bounds are those of its
primitive. -/
theorem node_bounds_agree_with_children (E : Externals B Obj H) (hU : UnionLaws E)
    (objects : List Obj) (hne : objects ≠ []) :
    ∃ t, recursiveBuildWithSAH E objects = some t ∧ BoundsInvariant E t := by
  obtain ⟨t, ht, _, hinv⟩ := recursiveBuildWithSAH_bounds hU objects hne
  exact ⟨t, ht, hinv⟩

/-- Witness of C4 on three boxes. -/
theorem node_bounds_agree_with_children_witness :
    UnionLaws Stub.ext ∧ Stub.threeBoxes ≠ []
    ∧ ∃ t, recursiveBuildWithSAH Stub.ext Stub.threeBoxes = some t
      ∧ BoundsInvariant Stub.ext t :=
  ⟨Stub.unionLaws, by simp [Stub.threeBoxes],
   node_bounds_agree_with_children Stub.ext Stub.unionLaws Stub.threeBoxes
     (by simp [Stub.threeBoxes])⟩

/-- C5 (the code departs from the claim) : on three boxes in a row the loop of
`recursiveBuildWithSAH` ends with `partIndex = 1`, its own expression of line
165 being `25/48` at index 0 and `31/72` at index 1, while the cost of the
specification is `49/72` at index 0 and `115/144` at index 1, so that the
index chosen does not minimise it. -/
theorem sah_split_is_not_spec_cost_minimum :
    sahPartIndex Stub.ext Stub.threeBoxes = 1
    ∧ sahCost Stub.ext (unionBounds Stub.ext Stub.threeBoxes)
        (sahSorted Stub.ext Stub.threeBoxes) 0 = 25 / 48
    ∧ sahCost Stub.ext (unionBounds Stub.ext Stub.threeBoxes)
        (sahSorted Stub.ext Stub.threeBoxes) 1 = 31 / 72
    ∧ specCost Stub.ext (unionBounds Stub.ext Stub.threeBoxes)
        (sahSorted Stub.ext Stub.threeBoxes) 0 = 49 / 72
    ∧ specCost Stub.ext (unionBounds Stub.ext Stub.threeBoxes)
        (sahSorted Stub.ext Stub.threeBoxes) 1 = 115 / 144
    ∧ specCost Stub.ext (unionBounds Stub.ext Stub.threeBoxes)
        (sahSorted Stub.ext Stub.threeBoxes) 0
      < specCost Stub.ext (unionBounds Stub.ext Stub.threeBoxes)
        (sahSorted Stub.ext Stub.threeBoxes) (sahPartIndex Stub.ext Stub.threeBoxes) := by
  have hidx : sahPartIndex Stub.ext Stub.threeBoxes = 1 := by
    unfold sahPartIndex
    rw [Stub.threeBoxes_sorted, Stub.threeBoxes_bounds]
    simp [sahLoop, Stub.threeBoxes, List.range, List.range.loop, sahStep, sahCost,
      unionBounds, Stub.ext, Stub.Union, Stub.SurfaceArea, Stub.Diagonal, Stub.miss,
      Stub.cube, Stub.vmin, Stub.vmax, DBL_MAX]
    norm_num
  have hc0 : sahCost Stub.ext (unionBounds Stub.ext Stub.threeBoxes)
      (sahSorted Stub.ext Stub.threeBoxes) 0 = 25 / 48 := by
    rw [Stub.threeBoxes_sorted, Stub.threeBoxes_bounds]
    simp [Stub.threeBoxes, sahCost, unionBounds, Stub.ext, Stub.Union,
      Stub.SurfaceArea, Stub.Diagonal, Stub.miss, Stub.cube, Stub.vmin, Stub.vmax]
    norm_num
  have hc1 : sahCost Stub.ext (unionBounds Stub.ext Stub.threeBoxes)
      (sahSorted Stub.ext Stub.threeBoxes) 1 = 31 / 72 := by
    rw [Stub.threeBoxes_sorted, Stub.threeBoxes_bounds]
    simp [Stub.threeBoxes, sahCost, unionBounds, Stub.ext, Stub.Union,
      Stub.SurfaceArea, Stub.Diagonal, Stub.miss, Stub.cube, Stub.vmin, Stub.vmax]
    norm_num
  have hs0 : specCost Stub.ext (unionBounds Stub.ext Stub.threeBoxes)
      (sahSorted Stub.ext Stub.threeBoxes) 0 = 49 / 72 := by
    rw [Stub.threeBoxes_sorted, Stub.threeBoxes_bounds]
    simp [Stub.threeBoxes, specCost, unionBounds, Stub.ext, Stub.Union,
      Stub.SurfaceArea, Stub.Diagonal, Stub.miss, Stub.cube, Stub.vmin, Stub.vmax]
    norm_num
  have hs1 : specCost Stub.ext (unionBounds Stub.ext Stub.threeBoxes)
      (sahSorted Stub.ext Stub.threeBoxes) 1 = 115 / 144 := by
    rw [Stub.threeBoxes_sorted, Stub.threeBoxes_bounds]
    simp [Stub.threeBoxes, specCost, unionBounds, Stub.ext, Stub.Union,
      Stub.SurfaceArea, Stub.Diagonal, Stub.miss, Stub.cube, Stub.vmin, Stub.vmax]
    norm_num
  refine ⟨hidx, hc0, hc1, hs0, hs1, ?_⟩
  rw [hidx, hs0, hs1]
  norm_num

/-- C7 (the code departs from the claim) : for the ray with origin
`(0, -1, 1)` and direction `(1, 1, 1)` the array `dirIsNeg` of
`getIntersection` is `(1, 0, 0)` where the rule of the specification gives
`(1, 1, 1)`, and moving the origin to `(0, 1, -1)`, the direction unchanged,
changes the array to `(1, 1, 1)`. -/
theorem dirIsNeg_depends_on_origin :
    dirIsNeg ⟨⟨0, -1, 1⟩, ⟨1, 1, 1⟩, ⟨1, 1, 1⟩⟩ = ⟨1, 0, 0⟩
    ∧ specDirIsNeg ⟨⟨0, -1, 1⟩, ⟨1, 1, 1⟩, ⟨1, 1, 1⟩⟩ = ⟨1, 1, 1⟩
    ∧ dirIsNeg ⟨⟨0, 1, -1⟩, ⟨1, 1, 1⟩, ⟨1, 1, 1⟩⟩ = ⟨1, 1, 1⟩ := by
  refine ⟨?_, ?_, ?_⟩ <;> simp [dirIsNeg, specDirIsNeg]

/-- C8 : the constructor on an empty collection builds no tree, the root stays
none, and `Intersect` then returns the no-hit `Intersection` for every ray,
with no call of a slab test or of a primitive's intersection routine. -/
theorem empty_collection_gives_no_hit (E : Externals B Obj H) (maxPrimsInNode : Int)
    (splitMethod : SplitMethod) :
    ∃ acc, BVHAccel.new E [] maxPrimsInNode splitMethod = some acc
      ∧ acc.root = .nil
      ∧ ∀ ray, ∃ res, acc.Intersect E ray = some res ∧ res.happened = false
          ∧ acc.IntersectTraced E ray = some (res, []) := by
  refine ⟨_, rfl, rfl, ?_⟩
  intro ray
  exact ⟨Intersection.default E, rfl, rfl, rfl⟩

/-! ## Traversal : unfolding -/

theorem getIntersection_miss (E : Externals B Obj H) (ray : Ray) (b : B)
    (l r : BVHBuildNode B Obj) (o : Option Obj) (hs : slabTest E ray b = false) :
    getIntersection E ray (.node b l r o)
      = some { Intersection.default E with happened := false } := by
  simp [getIntersection, hs]

theorem getIntersection_leaf (E : Externals B Obj H) (ray : Ray) (b : B)
    (l r : BVHBuildNode B Obj) (p : Obj) (hs : slabTest E ray b = true)
    (hleaf : (l.isNull && r.isNull) = true) :
    getIntersection E ray (.node b l r (some p)) = some (E.getIntersection p ray) := by
  simp only [Bool.and_eq_true] at hleaf
  simp [getIntersection, hs, hleaf.1, hleaf.2]

theorem getIntersection_internal (E : Externals B Obj H) (ray : Ray) (b : B)
    (l r : BVHBuildNode B Obj) (o : Option Obj) (hs : slabTest E ray b = true)
    (hleaf : (l.isNull && r.isNull) = false) :
    getIntersection E ray (.node b l r o)
      = (childIntersection E ray l).bind (fun li =>
          (childIntersection E ray r).bind (fun ri => some (closer li ri))) := by
  simp only [getIntersection, hs, hleaf, Bool.not_true, Bool.false_eq_true, if_false,
    Bool.false_and]
  unfold childIntersection
  cases l.bounds? <;> cases r.bounds? <;> simp only [] <;> repeat' split
  all_goals rfl

theorem survivingLeaves_miss (E : Externals B Obj H) (ray : Ray) (b : B)
    (l r : BVHBuildNode B Obj) (o : Option Obj) (hs : slabTest E ray b = false) :
    survivingLeaves E ray (.node b l r o) = [] := by
  unfold survivingLeaves
  rw [List.filter_eq_nil_iff]
  intro p hp
  rw [leafPaths] at hp
  split at hp
  · simp only [List.mem_singleton] at hp
    subst hp
    simp [hs]
  · rw [List.mem_map] at hp
    obtain ⟨q, _, rfl⟩ := hp
    simp [hs]

theorem survivingLeaves_leaf (E : Externals B Obj H) (ray : Ray) (b : B)
    (l r : BVHBuildNode B Obj) (o : Option Obj) (hs : slabTest E ray b = true)
    (hleaf : (l.isNull && r.isNull) = true) :
    survivingLeaves E ray (.node b l r o) = [([b], o)] := by
  unfold survivingLeaves leafPaths
  simp [hleaf, hs]

theorem survivingLeaves_internal (E : Externals B Obj H) (ray : Ray) (b : B)
    (l r : BVHBuildNode B Obj) (o : Option Obj) (hs : slabTest E ray b = true)
    (hleaf : (l.isNull && r.isNull) = false) :
    survivingLeaves E ray (.node b l r o)
      = (survivingLeaves E ray l ++ survivingLeaves E ray r).map
          (fun p => (b :: p.1, p.2)) := by
  unfold survivingLeaves
  rw [leafPaths]
  simp only [hleaf, Bool.false_eq_true, if_false, List.filter_map, List.filter_append]
  congr 1
  have hf : ((fun p : List B × Option Obj => p.1.all (slabTest E ray))
      ∘ fun p : List B × Option Obj => (b :: p.1, p.2))
      = fun p : List B × Option Obj => p.1.all (slabTest E ray) := by
    funext p
    simp [hs]
  rw [hf]

theorem survivingHit_nil (E : Externals B Obj H) (ray : Ray) (d : ℚ) :
    ¬ SurvivingHit E ray (.nil : BVHBuildNode B Obj) d := by
  simp [SurvivingHit, survivingLeaves, leafPaths]

theorem survivingHit_miss (E : Externals B Obj H) (ray : Ray) (b : B)
    (l r : BVHBuildNode B Obj) (o : Option Obj) (hs : slabTest E ray b = false) (d : ℚ) :
    ¬ SurvivingHit E ray (.node b l r o) d := by
  simp [SurvivingHit, survivingLeaves_miss E ray b l r o hs]

theorem survivingHit_internal (E : Externals B Obj H) (ray : Ray) (b : B)
    (l r : BVHBuildNode B Obj) (o : Option Obj) (hs : slabTest E ray b = true)
    (hleaf : (l.isNull && r.isNull) = false) (d : ℚ) :
    SurvivingHit E ray (.node b l r o) d
      ↔ SurvivingHit E ray l d ∨ SurvivingHit E ray r d := by
  unfold SurvivingHit
  rw [survivingLeaves_internal E ray b l r o hs hleaf]
  constructor
  · rintro ⟨p, hp, ob, hob, hh, hd⟩
    rw [List.mem_map] at hp
    obtain ⟨q, hq, rfl⟩ := hp
    rcases List.mem_append.mp hq with hq | hq
    · exact Or.inl ⟨q, hq, ob, hob, hh, hd⟩
    · exact Or.inr ⟨q, hq, ob, hob, hh, hd⟩
  · rintro (⟨q, hq, ob, hob, hh, hd⟩ | ⟨q, hq, ob, hob, hh, hd⟩)
    · exact ⟨(b :: q.1, q.2), List.mem_map.mpr ⟨q, List.mem_append.mpr (Or.inl hq), rfl⟩,
        ob, hob, hh, hd⟩
    · exact ⟨(b :: q.1, q.2), List.mem_map.mpr ⟨q, List.mem_append.mpr (Or.inr hq), rfl⟩,
        ob, hob, hh, hd⟩

theorem nearestOf_default (E : Externals B Obj H) (S : ℚ → Prop) (hS : ∀ d, ¬ S d) :
    NearestOf S (Intersection.default E) := by
  refine ⟨⟨fun h => ?_, fun ⟨d, hd⟩ => absurd hd (hS d)⟩, fun h => ?_⟩ <;>
    simp [Intersection.default] at h

theorem nearestOf_congr {S T : ℚ → Prop} (h : ∀ d, S d ↔ T d) (res : Intersection H)
    (hres : NearestOf S res) : NearestOf T res := by
  have hST : S = T := funext fun d => propext (h d)
  rw [← hST]
  exact hres

theorem nearestOf_closer {Sl Sr : ℚ → Prop} (li ri : Intersection H)
    (hl : NearestOf Sl li) (hr : NearestOf Sr ri) :
    NearestOf (fun d => Sl d ∨ Sr d) (closer li ri) := by
  unfold closer
  cases hlh : li.happened with
  | false =>
    have hnl : ∀ d, ¬ Sl d := fun d hd => by
      have := hl.1.mpr ⟨d, hd⟩
      rw [hlh] at this
      exact Bool.noConfusion this
    simp only [Bool.false_and, Bool.false_eq_true, if_false]
    refine ⟨⟨fun h => ?_, fun ⟨d, hd⟩ => ?_⟩, fun h => ⟨Or.inr (hr.2 h).1, fun d hd => ?_⟩⟩
    · obtain ⟨d, hd⟩ := hr.1.mp h
      exact ⟨d, Or.inr hd⟩
    · rcases hd with hd | hd
      · exact absurd hd (hnl d)
      · exact hr.1.mpr ⟨d, hd⟩
    · rcases hd with hd | hd
      · exact absurd hd (hnl d)
      · exact (hr.2 h).2 d hd
  | true =>
    obtain ⟨hSl, hminl⟩ := hl.2 hlh
    cases hrh : ri.happened with
    | false =>
      have hnr : ∀ d, ¬ Sr d := fun d hd => by
        have := hr.1.mpr ⟨d, hd⟩
        rw [hrh] at this
        exact Bool.noConfusion this
      simp only [Bool.not_false, Bool.true_or, Bool.and_self, if_true]
      refine ⟨⟨fun _ => ⟨_, Or.inl hSl⟩, fun _ => hlh⟩,
        fun _ => ⟨Or.inl hSl, fun d hd => ?_⟩⟩
      rcases hd with hd | hd
      · exact hminl d hd
      · exact absurd hd (hnr d)
    | true =>
      obtain ⟨hSr, hminr⟩ := hr.2 hrh
      by_cases hlt : li.distance < ri.distance
      · simp only [hlt, Bool.not_true, Bool.false_or, decide_True, Bool.and_self, if_true]
        refine ⟨⟨fun _ => ⟨_, Or.inl hSl⟩, fun _ => hlh⟩,
          fun _ => ⟨Or.inl hSl, fun d hd => ?_⟩⟩
        rcases hd with hd | hd
        · exact hminl d hd
        · exact le_trans (le_of_lt hlt) (hminr d hd)
      · simp only [hlt, Bool.not_true, Bool.false_or, decide_False, Bool.and_false,
          Bool.false_eq_true, if_false]
        refine ⟨⟨fun _ => ⟨_, Or.inr hSr⟩, fun _ => hrh⟩,
          fun _ => ⟨Or.inr hSr, fun d hd => ?_⟩⟩
        rcases hd with hd | hd
        · exact le_trans (not_lt.mp hlt) (hminl d hd)
        · exact hminr d hd

theorem childIntersection_nearest (E : Externals B Obj H) (ray : Ray)
    (c : BVHBuildNode B Obj)
    (ih : c.isNull = false → ∃ res, getIntersection E ray c = some res
      ∧ NearestOf (SurvivingHit E ray c) res) :
    ∃ res, childIntersection E ray c = some res
      ∧ NearestOf (SurvivingHit E ray c) res := by
  cases c with
  | nil => exact ⟨_, rfl, nearestOf_default E _ (survivingHit_nil E ray)⟩
  | node cb cl cr co =>
    cases hs : slabTest E ray cb with
    | true =>
      obtain ⟨res, hres, hn⟩ := ih rfl
      exact ⟨res, by simp [childIntersection, BVHBuildNode.bounds?, hs, hres], hn⟩
    | false =>
      exact ⟨_, by simp [childIntersection, BVHBuildNode.bounds?, hs],
        nearestOf_default E _ (survivingHit_miss E ray cb cl cr co hs)⟩

/-- On a node whose surviving leaves all hold a primitive, `getIntersection`
returns, and what it returns is the nearest hit among the surviving leaves. -/
theorem getIntersection_nearest (E : Externals B Obj H) (ray : Ray) :
    ∀ t : BVHBuildNode B Obj, t.isNull = false →
      (∀ p ∈ survivingLeaves E ray t, p.2.isSome = true) →
      ∃ res, getIntersection E ray t = some res
        ∧ NearestOf (SurvivingHit E ray t) res := by
  intro t
  induction t with
  | nil => intro h; simp [BVHBuildNode.isNull] at h
  | node b l r o ihl ihr =>
    intro _ hobj
    cases hs : slabTest E ray b with
    | false =>
      exact ⟨_, getIntersection_miss E ray b l r o hs,
        nearestOf_default E _ (survivingHit_miss E ray b l r o hs)⟩
    | true =>
      cases hleaf : (l.isNull && r.isNull) with
      | true =>
        have hsl := survivingLeaves_leaf E ray b l r o hs hleaf
        have ho := hobj ([b], o) (by rw [hsl]; exact List.mem_singleton.mpr rfl)
        obtain ⟨ob, rfl⟩ := Option.isSome_iff_exists.mp ho
        have hS : ∀ d, SurvivingHit E ray (.node b l r (some ob)) d
            ↔ ((E.getIntersection ob ray).happened = true
              ∧ (E.getIntersection ob ray).distance = d) := by
          intro d
          unfold SurvivingHit
          rw [hsl]
          simp
        refine ⟨_, getIntersection_leaf E ray b l r ob hs hleaf, ⟨fun h => ?_, ?_⟩, fun h => ?_⟩
        · exact ⟨_, (hS _).mpr ⟨h, rfl⟩⟩
        · rintro ⟨d, hd⟩
          exact ((hS d).mp hd).1
        · refine ⟨(hS _).mpr ⟨h, rfl⟩, fun d hd => ?_⟩
          exact le_of_eq ((hS d).mp hd).2
      | false =>
        have hsl := survivingLeaves_internal E ray b l r o hs hleaf
        have hobjl : ∀ p ∈ survivingLeaves E ray l, p.2.isSome = true := by
          intro p hp
          exact hobj (b :: p.1, p.2) (by
            rw [hsl]
            exact List.mem_map.mpr ⟨p, List.mem_append.mpr (Or.inl hp), rfl⟩)
        have hobjr : ∀ p ∈ survivingLeaves E ray r, p.2.isSome = true := by
          intro p hp
          exact hobj (b :: p.1, p.2) (by
            rw [hsl]
            exact List.mem_map.mpr ⟨p, List.mem_append.mpr (Or.inr hp), rfl⟩)
        obtain ⟨li, hli, hnl⟩ := childIntersection_nearest E ray l (fun h => ihl h hobjl)
        obtain ⟨ri, hri, hnr⟩ := childIntersection_nearest E ray r (fun h => ihr h hobjr)
        refine ⟨closer li ri, ?_, ?_⟩
        · rw [getIntersection_internal E ray b l r o hs hleaf, hli, hri]
          rfl
        · exact nearestOf_congr
            (fun d => (survivingHit_internal E ray b l r o hs hleaf d).symm) _
            (nearestOf_closer li ri hnl hnr)

/-- The instrumented traversal returns what `getIntersection` returns. -/
theorem getIntersectionTraced_fst (E : Externals B Obj H) (ray : Ray) :
    ∀ t : BVHBuildNode B Obj,
      (getIntersectionTraced E ray t).map Prod.fst = getIntersection E ray t := by
  intro t
  induction t with
  | nil => rfl
  | node b l r o ihl ihr =>
    simp only [getIntersectionTraced, getIntersection]
    split
    · rfl
    · split
      · cases o <;> rfl
      · rw [← ihl, ← ihr]
        cases l.bounds? <;> cases r.bounds? <;> simp only [] <;>
          repeat' split
        all_goals
          cases getIntersectionTraced E ray l <;> cases getIntersectionTraced E ray r <;> rfl

/-- C6 : on every tree whose surviving leaves hold a primitive, and for every
ray, `Intersect` returns a record that is a hit exactly when the primitive of
some surviving leaf reports a hit, and then its distance is the least of the
distances those primitives report. At a node that passes the slab test and is
not a leaf the result is `closer` of the two children's results : the left one
when only the left is a hit, the right one whenever the left is not a hit. -/
theorem intersect_returns_nearest_surviving_hit (E : Externals B Obj H)
    (acc : BVHAccel B Obj) (ray : Ray)
    (hobj : ∀ p ∈ survivingLeaves E ray acc.root, p.2.isSome = true) :
    (∃ res, acc.Intersect E ray = some res
      ∧ NearestOf (SurvivingHit E ray acc.root) res)
    ∧ (∀ (b : B) (l r : BVHBuildNode B Obj) (o : Option Obj) (li ri : Intersection H),
        slabTest E ray b = true → (l.isNull && r.isNull) = false →
        childIntersection E ray l = some li → childIntersection E ray r = some ri →
        getIntersection E ray (.node b l r o) = some (closer li ri)
        ∧ (li.happened = true → ri.happened = false → closer li ri = li)
        ∧ (li.happened = false → closer li ri = ri)) := by
  constructor
  · cases hnull : acc.root.isNull with
    | true =>
      refine ⟨Intersection.default E, by simp [BVHAccel.Intersect, hnull], ?_⟩
      apply nearestOf_default
      intro d
      cases hroot : acc.root with
      | nil => exact survivingHit_nil E ray d
      | node _ _ _ _ => rw [hroot] at hnull; simp [BVHBuildNode.isNull] at hnull
    | false =>
      obtain ⟨res, hres, hn⟩ := getIntersection_nearest E ray acc.root hnull hobj
      exact ⟨res, by simp [BVHAccel.Intersect, hnull, hres], hn⟩
  · intro b l r o li ri hs hleaf hli hri
    refine ⟨?_, ?_, ?_⟩
    · rw [getIntersection_internal E ray b l r o hs hleaf, hli, hri]
      rfl
    · intro hl hr
      simp [closer, hl, hr]
    · intro hl
      simp [closer, hl]

/-- Witness of C6 on a tree of two leaves. -/
theorem intersect_returns_nearest_surviving_hit_witness :
    (∀ p ∈ survivingLeaves Stub.ext Stub.rayDiagonal Stub.twoLeafAccel.root,
      p.2.isSome = true)
    ∧ ∃ res, Stub.twoLeafAccel.Intersect Stub.ext Stub.rayDiagonal = some res
      ∧ NearestOf (SurvivingHit Stub.ext Stub.rayDiagonal Stub.twoLeafAccel.root) res :=
  have hobj : ∀ p ∈ survivingLeaves Stub.ext Stub.rayDiagonal Stub.twoLeafAccel.root,
      p.2.isSome = true := by
    intro p hp
    have hp2 := (List.mem_filter.mp hp).1
    simp [Stub.twoLeafAccel, Stub.twoLeafTree, leafPaths, BVHBuildNode.isNull] at hp2
    rcases hp2 with rfl | rfl <;> rfl
  ⟨hobj,
   (intersect_returns_nearest_surviving_hit Stub.ext Stub.twoLeafAccel Stub.rayDiagonal
     hobj).1⟩

/-- C9 : when the slab test of a node's bounds fails for the ray,
`getIntersection` on that node returns a record with `happened = false`, and
the instrumented traversal, which returns the same record, has called the
intersection routine of no primitive. -/
theorem missed_bounds_prune_subtree (E : Externals B Obj H) (ray : Ray) (b : B)
    (l r : BVHBuildNode B Obj) (o : Option Obj) (hs : slabTest E ray b = false) :
    ∃ res trace, getIntersection E ray (.node b l r o) = some res
      ∧ getIntersectionTraced E ray (.node b l r o) = some (res, trace)
      ∧ res.happened = false ∧ primitiveCalls trace = [] := by
  refine ⟨{ Intersection.default E with happened := false }, [.slab b],
    getIntersection_miss E ray b l r o hs, ?_, rfl, rfl⟩
  simp [getIntersectionTraced, hs]

/-- Witness of C9 : the diagonal ray and the root of a tree whose box it
passes by. -/
theorem missed_bounds_prune_subtree_witness :
    slabTest Stub.ext Stub.rayDiagonal (some Stub.boxOffRay) = false
    ∧ ∃ res trace,
      getIntersection Stub.ext Stub.rayDiagonal
          (.node (some Stub.boxOffRay) Stub.twoLeafTree Stub.twoLeafTree none) = some res
      ∧ getIntersectionTraced Stub.ext Stub.rayDiagonal
          (.node (some Stub.boxOffRay) Stub.twoLeafTree Stub.twoLeafTree none)
          = some (res, trace)
      ∧ res.happened = false ∧ primitiveCalls trace = [] :=
  have hs : slabTest Stub.ext Stub.rayDiagonal (some Stub.boxOffRay) = false := by
    simp [slabTest, Stub.ext, Stub.IntersectP, Stub.rayDiagonal, Stub.boxOffRay,
      Stub.cube, dirIsNeg]
  ⟨hs, missed_bounds_prune_subtree Stub.ext Stub.rayDiagonal (some Stub.boxOffRay)
    Stub.twoLeafTree Stub.twoLeafTree none hs⟩

/-- C10 : for three or more primitives, `recursiveBuildWithSAH` and
`recursiveBuild` each recurse on two groups that are both non-empty and that,
left group first, make up the sorted list ; in `recursiveBuildWithSAH` the
split index is at most `n - 2`. -/
theorem split_groups_nonempty_contiguous (E : Externals B Obj H) (objects : List Obj)
    (h : 3 ≤ objects.length) :
    (sahLeftShapes E objects ++ sahRightShapes E objects = sahSorted E objects
      ∧ sahLeftShapes E objects ≠ [] ∧ sahRightShapes E objects ≠ []
      ∧ sahPartIndex E objects ≤ objects.length - 2
      ∧ recursiveBuildWithSAH E objects
        = (recursiveBuildWithSAH E (sahLeftShapes E objects)).bind (fun left =>
            (recursiveBuildWithSAH E (sahRightShapes E objects)).bind (fun right =>
              some (.node (unionBounds E objects) left right none))))
    ∧ (medianLeftShapes E objects ++ medianRightShapes E objects = medianSorted E objects
      ∧ medianLeftShapes E objects ≠ [] ∧ medianRightShapes E objects ≠ []
      ∧ recursiveBuild E objects
        = (recursiveBuild E (medianLeftShapes E objects)).bind (fun left =>
            (recursiveBuild E (medianRightShapes E objects)).bind (fun right =>
              left.bounds?.bind (fun lb => right.bounds?.bind (fun rb =>
                some (.node (E.Union lb rb) left right none)))))) := by
  have hp := sahPartIndex_lt E objects (by omega)
  have hl := sahLeftShapes_length E objects h
  have hr := sahRightShapes_length E objects
  have hml := medianLeftShapes_length E objects
  have hmr := medianRightShapes_length E objects
  refine ⟨⟨List.take_append_drop _ _, List.ne_nil_of_length_pos (by omega),
    List.ne_nil_of_length_pos (by omega), by omega,
    recursiveBuildWithSAH_many E objects h⟩,
    List.take_append_drop _ _, List.ne_nil_of_length_pos (by omega),
    List.ne_nil_of_length_pos (by omega), recursiveBuild_many E objects h⟩

/-- Witness of C10 on three boxes. -/
theorem split_groups_nonempty_contiguous_witness :
    3 ≤ Stub.threeBoxes.length
    ∧ sahLeftShapes Stub.ext Stub.threeBoxes ≠ []
    ∧ sahRightShapes Stub.ext Stub.threeBoxes ≠ []
    ∧ medianLeftShapes Stub.ext Stub.threeBoxes ≠ []
    ∧ medianRightShapes Stub.ext Stub.threeBoxes ≠ [] :=
  have h3 : 3 ≤ Stub.threeBoxes.length := by simp [Stub.threeBoxes]
  have hc := split_groups_nonempty_contiguous Stub.ext Stub.threeBoxes h3
  ⟨h3, hc.1.2.1, hc.1.2.2.1, hc.2.2.1, hc.2.2.2.1⟩

/-! ## Depth and the median split -/

theorem depth_internal (b : B) (l r : BVHBuildNode B Obj) (o : Option Obj)
    (hl : l.isNull = false) :
    depth (.node b l r o) = 1 + max (depth l) (depth r) := by
  simp [depth, hl]

theorem clog_two_half (n : Nat) (h : 2 ≤ n) :
    1 + max (Nat.clog 2 (n / 2)) (Nat.clog 2 (n - n / 2)) ≤ Nat.clog 2 n := by
  rw [Nat.clog_of_two_le (by decide) h]
  have h1 : Nat.clog 2 (n / 2) ≤ Nat.clog 2 ((n + 2 - 1) / 2) :=
    Nat.clog_mono_right 2 (by omega)
  have h2 : Nat.clog 2 (n - n / 2) ≤ Nat.clog 2 ((n + 2 - 1) / 2) :=
    Nat.clog_mono_right 2 (by omega)
  have := max_le h1 h2
  omega

/-- C11 : for three or more primitives `recursiveBuild` recurses on a left
group of `n / 2` primitives and a right group of the other `n - n / 2`, and
for every non-empty list of `n` primitives the tree it returns has depth at
most the ceiling of `log2 n`. -/
theorem median_split_halves_and_log_depth (E : Externals B Obj H) (objects : List Obj)
    (hne : objects ≠ []) :
    (3 ≤ objects.length →
      (medianLeftShapes E objects).length = objects.length / 2
      ∧ (medianRightShapes E objects).length = objects.length - objects.length / 2
      ∧ recursiveBuild E objects
        = (recursiveBuild E (medianLeftShapes E objects)).bind (fun left =>
            (recursiveBuild E (medianRightShapes E objects)).bind (fun right =>
              left.bounds?.bind (fun lb => right.bounds?.bind (fun rb =>
                some (.node (E.Union lb rb) left right none))))))
    ∧ ∃ t, recursiveBuild E objects = some t ∧ depth t ≤ Nat.clog 2 objects.length := by
  constructor
  · intro h3
    exact ⟨medianLeftShapes_length E objects, medianRightShapes_length E objects,
      recursiveBuild_many E objects h3⟩
  · refine recursiveBuild_induction E
      (fun objs t => depth t ≤ Nat.clog 2 objs.length) ?_ ?_ ?_ objects hne
    · intro o0
      simp [depth, BVHBuildNode.isNull]
    · intro o0 o1
      have h := clog_two_half 2 (le_refl 2)
      simp [depth, BVHBuildNode.isNull] at h ⊢
      omega
    · intro objs left right lb rb h3 hleft _ _ _ hPl hPr
      have hln := recursiveBuild_isNull E _ _ hleft
      rw [depth_internal _ _ _ _ hln]
      rw [medianLeftShapes_length] at hPl
      rw [medianRightShapes_length] at hPr
      have h := clog_two_half objs.length (by omega)
      have := max_le_max hPl hPr
      omega

/-- Witness of C11 on three boxes. -/
theorem median_split_halves_and_log_depth_witness :
    Stub.threeBoxes ≠ []
    ∧ ∃ t, recursiveBuild Stub.ext Stub.threeBoxes = some t
      ∧ depth t ≤ Nat.clog 2 Stub.threeBoxes.length :=
  ⟨by simp [Stub.threeBoxes],
   (median_split_halves_and_log_depth Stub.ext Stub.threeBoxes
     (by simp [Stub.threeBoxes])).2⟩

/-! ## The constructor and its configuration -/

/-- What `recursiveBuildWithSAH` returns is a node, all of whose nodes are
leaves or internal, with one leaf for each input primitive. -/
theorem recursiveBuildWithSAH_shape (E : Externals B Obj H) (objects : List Obj)
    (hne : objects ≠ []) :
    ∃ t, recursiveBuildWithSAH E objects = some t
      ∧ t.isNull = false ∧ LeafOrInternal t ∧ numLeaves t = objects.length := by
  refine recursiveBuildWithSAH_induction E
    (fun objs t => t.isNull = false ∧ LeafOrInternal t ∧ numLeaves t = objs.length)
    ?_ ?_ ?_ objects hne
  · intro o0
    simp [LeafOrInternal, numLeaves, BVHBuildNode.isNull]
  · intro o0 o1
    simp [LeafOrInternal, numLeaves, BVHBuildNode.isNull]
  · intro objs left right _ _ _ hPl hPr
    refine ⟨rfl, ⟨Or.inr ⟨hPl.1, hPr.1, rfl⟩, hPl.2.1, hPr.2.1⟩, ?_⟩
    rw [numLeaves_internal _ _ _ _ hPl.1, hPl.2.2, hPr.2.2, ← List.length_append]
    exact (sahShapes_perm E objs).length_eq

/-- On a non-empty collection the constructor stores as root what
`recursiveBuildWithSAH` returns on the collection. -/
theorem new_of_build (E : Externals B Obj H) (p : List Obj) (hne : p ≠ [])
    (maxPrimsInNode : Int) (splitMethod : SplitMethod) (t : BVHBuildNode B Obj)
    (ht : recursiveBuildWithSAH E p = some t) :
    BVHAccel.new E p maxPrimsInNode splitMethod
      = some { maxPrimsInNode := min 255 maxPrimsInNode, splitMethod := splitMethod,
               primitives := p, root := t } := by
  have hemp : p.isEmpty = false := by
    cases p with
    | nil => exact absurd rfl hne
    | cons _ _ => rfl
  simp [BVHAccel.new, hemp, ht]

/-- C12 : for a non-empty primitive list and any two values of the maximum
leaf size the constructor builds the same tree, and in that tree every leaf
holds a primitive of its own : every node is a leaf with a primitive or an
internal node, and there are as many leaves as primitives. -/
theorem max_leaf_size_does_not_change_tree (E : Externals B Obj H) (p : List Obj)
    (hne : p ≠ []) (m1 m2 : Int) (splitMethod : SplitMethod) :
    ∃ acc1 acc2, BVHAccel.new E p m1 splitMethod = some acc1
      ∧ BVHAccel.new E p m2 splitMethod = some acc2
      ∧ acc1.root = acc2.root
      ∧ LeafOrInternal acc1.root ∧ numLeaves acc1.root = p.length := by
  obtain ⟨t, ht, _, hshape, hnum⟩ := recursiveBuildWithSAH_shape E p hne
  exact ⟨_, _, new_of_build E p hne m1 splitMethod t ht,
    new_of_build E p hne m2 splitMethod t ht, rfl, hshape, hnum⟩

/-- Witness of C12 : three boxes, leaf sizes 1 and 4. -/
theorem max_leaf_size_does_not_change_tree_witness :
    Stub.threeBoxes ≠ []
    ∧ ∃ acc1 acc2, BVHAccel.new Stub.ext Stub.threeBoxes 1 SplitMethod.SAH = some acc1
      ∧ BVHAccel.new Stub.ext Stub.threeBoxes 4 SplitMethod.SAH = some acc2
      ∧ acc1.root = acc2.root
      ∧ LeafOrInternal acc1.root ∧ numLeaves acc1.root = Stub.threeBoxes.length :=
  ⟨by simp [Stub.threeBoxes],
   max_leaf_size_does_not_change_tree Stub.ext Stub.threeBoxes
     (by simp [Stub.threeBoxes]) 1 4 SplitMethod.SAH⟩

/-- C16 : for a non-empty primitive list the constructor stores as root the
tree that `recursiveBuildWithSAH` returns on the list, whichever split method
is selected ; `MedianSplit` and `SAH` give the same tree. -/
theorem constructor_builds_sah_tree_for_either_method (E : Externals B Obj H)
    (p : List Obj) (hne : p ≠ []) (maxPrimsInNode : Int) :
    ∃ t, recursiveBuildWithSAH E p = some t
      ∧ (∀ splitMethod, ∃ acc, BVHAccel.new E p maxPrimsInNode splitMethod = some acc
          ∧ acc.root = t)
      ∧ (BVHAccel.new E p maxPrimsInNode SplitMethod.MedianSplit).map BVHAccel.root
          = (BVHAccel.new E p maxPrimsInNode SplitMethod.SAH).map BVHAccel.root := by
  obtain ⟨t, ht, _⟩ := recursiveBuildWithSAH_shape E p hne
  refine ⟨t, ht, fun sm => ⟨_, new_of_build E p hne maxPrimsInNode sm t ht, rfl⟩, ?_⟩
  rw [new_of_build E p hne maxPrimsInNode SplitMethod.MedianSplit t ht,
    new_of_build E p hne maxPrimsInNode SplitMethod.SAH t ht]
  rfl

/-- Witness of C16 on three boxes. -/
theorem constructor_builds_sah_tree_for_either_method_witness :
    Stub.threeBoxes ≠ []
    ∧ ∃ t, recursiveBuildWithSAH Stub.ext Stub.threeBoxes = some t
      ∧ (∀ splitMethod, ∃ acc,
          BVHAccel.new Stub.ext Stub.threeBoxes 1 splitMethod = some acc ∧ acc.root = t)
      ∧ (BVHAccel.new Stub.ext Stub.threeBoxes 1 SplitMethod.MedianSplit).map BVHAccel.root
          = (BVHAccel.new Stub.ext Stub.threeBoxes 1 SplitMethod.SAH).map BVHAccel.root :=
  ⟨by simp [Stub.threeBoxes],
   constructor_builds_sah_tree_for_either_method Stub.ext Stub.threeBoxes
     (by simp [Stub.threeBoxes]) 1⟩

/-- C17 : on exactly two primitives `a`, `b` both builders return an internal
node whose left child is the leaf of `a`, whose right child is the leaf of
`b`, in this order, and whose bounds are the union of the bounds of `a` and
of `b`. -/
theorem two_primitives_give_two_leaves_in_order (E : Externals B Obj H) (a b : Obj) :
    recursiveBuildWithSAH E [a, b]
      = some (.node (E.Union (E.getBounds a) (E.getBounds b))
          (.node (E.getBounds a) .nil .nil (some a))
          (.node (E.getBounds b) .nil .nil (some b)) none)
    ∧ recursiveBuild E [a, b]
      = some (.node (E.Union (E.getBounds a) (E.getBounds b))
          (.node (E.getBounds a) .nil .nil (some a))
          (.node (E.getBounds b) .nil .nil (some b)) none) :=
  ⟨recursiveBuildWithSAH_two E a b, recursiveBuild_two E a b⟩

/-- C15 : on a non-empty list `recursiveBuildWithSAH` returns a node ; with
two objects it calls itself on the two one-object lists, and with three or
more on two groups that are non-empty, strictly shorter than the list, and
together as long as the list. -/
theorem sah_build_terminates (E : Externals B Obj H) (objects : List Obj)
    (hne : objects ≠ []) :
    (∃ t, recursiveBuildWithSAH E objects = some t ∧ t.isNull = false)
    ∧ (∀ o0 o1, objects = [o0, o1] →
        recursiveBuildWithSAH E objects
          = (recursiveBuildWithSAH E [o0]).bind (fun left =>
              (recursiveBuildWithSAH E [o1]).bind (fun right =>
                left.bounds?.bind (fun lb => right.bounds?.bind (fun rb =>
                  some (.node (E.Union lb rb) left right none)))))
        ∧ [o0].length < objects.length ∧ [o1].length < objects.length)
    ∧ (3 ≤ objects.length →
        recursiveBuildWithSAH E objects
          = (recursiveBuildWithSAH E (sahLeftShapes E objects)).bind (fun left =>
              (recursiveBuildWithSAH E (sahRightShapes E objects)).bind (fun right =>
                some (.node (unionBounds E objects) left right none)))
        ∧ 0 < (sahLeftShapes E objects).length
        ∧ (sahLeftShapes E objects).length < objects.length
        ∧ 0 < (sahRightShapes E objects).length
        ∧ (sahRightShapes E objects).length < objects.length
        ∧ (sahLeftShapes E objects).length + (sahRightShapes E objects).length
            = objects.length) := by
  refine ⟨?_, ?_, ?_⟩
  · obtain ⟨t, ht, hnull, _⟩ := recursiveBuildWithSAH_shape E objects hne
    exact ⟨t, ht, hnull⟩
  · intro o0 o1 h
    subst h
    refine ⟨?_, by simp, by simp⟩
    rw [recursiveBuildWithSAH_two, recursiveBuildWithSAH_one, recursiveBuildWithSAH_one]
    rfl
  · intro h3
    have hp := sahPartIndex_lt E objects (by omega)
    have hl := sahLeftShapes_length E objects h3
    have hr := sahRightShapes_length E objects
    exact ⟨recursiveBuildWithSAH_many E objects h3, by omega, by omega, by omega,
      by omega, by omega⟩

/-- Witness of C15 on three boxes. -/
theorem sah_build_terminates_witness :
    Stub.threeBoxes ≠ []
    ∧ ∃ t, recursiveBuildWithSAH Stub.ext Stub.threeBoxes = some t ∧ t.isNull = false :=
  ⟨by simp [Stub.threeBoxes],
   (sah_build_terminates Stub.ext Stub.threeBoxes (by simp [Stub.threeBoxes])).1⟩

theorem tdiv_cases (c k : Int) (hk : 0 < k) :
    (0 ≤ c ∧ c.tdiv k = c / k) ∨ (c < 0 ∧ c.tdiv k = -((-c) / k)) := by
  by_cases h : 0 ≤ c
  · exact Or.inl ⟨h, Int.tdiv_eq_ediv h (le_of_lt hk)⟩
  · right
    refine ⟨by omega, ?_⟩
    have h2 : (-c).tdiv k = (-c) / k := Int.tdiv_eq_ediv (by omega) (le_of_lt hk)
    rw [← h2, Int.neg_tdiv, neg_neg]

theorem castInt_range (diff : Int) :
    -2147483648 ≤ castInt diff ∧ castInt diff < 2147483648 := by
  unfold castInt
  split <;> omega

theorem castInt_of_range (d : Int) (h0 : -2147483648 ≤ d) (hd : d < 2147483648) :
    castInt d = d := by
  unfold castInt
  rw [if_pos ⟨h0, hd⟩]

/-- Whatever the elapsed time, every value that lines 19-21 compute lies in
the range of `int` : the `int` arithmetic there never wraps around. -/
theorem time_values_in_int_range (diff : Int) :
    (-2147483648 ≤ timeHrs diff ∧ timeHrs diff < 2147483648)
    ∧ (-2147483648 ≤ (castInt diff).tdiv 60 ∧ (castInt diff).tdiv 60 < 2147483648)
    ∧ (-2147483648 ≤ timeHrs diff * 60 ∧ timeHrs diff * 60 < 2147483648)
    ∧ (-2147483648 ≤ timeMins diff ∧ timeMins diff < 2147483648)
    ∧ (-2147483648 ≤ timeHrs diff * 3600 ∧ timeHrs diff * 3600 < 2147483648)
    ∧ (-2147483648 ≤ castInt diff - timeHrs diff * 3600
        ∧ castInt diff - timeHrs diff * 3600 < 2147483648)
    ∧ (-2147483648 ≤ timeMins diff * 60 ∧ timeMins diff * 60 < 2147483648)
    ∧ (-2147483648 ≤ timeSecs diff ∧ timeSecs diff < 2147483648) := by
  have hr := castInt_range diff
  unfold timeSecs timeMins timeHrs
  rcases tdiv_cases (castInt diff) 3600 (by decide) with ⟨h0, h1⟩ | ⟨h0, h1⟩ <;>
    rcases tdiv_cases (castInt diff) 60 (by decide) with ⟨_, h2⟩ | ⟨_, h2⟩ <;>
    rw [h1, h2] <;>
    refine ⟨⟨?_, ?_⟩, ⟨?_, ?_⟩, ⟨?_, ?_⟩, ⟨?_, ?_⟩, ⟨?_, ?_⟩, ⟨?_, ?_⟩, ⟨?_, ?_⟩, ?_, ?_⟩ <;>
    omega

/-- C18, as the claim states it, fails : for `d = 2147483648` elapsed seconds,
a non-negative whole number, `(int)diff` is out of the range of `int` and the
constructor computes `hrs = -596523`, `mins = -14`, `secs = -8`, which do not
add up to `d` and are not in `0 .. 59`. -/
theorem time_decomposition_fails_beyond_int_range :
    (0 : Int) ≤ 2147483648
    ∧ timeHrs 2147483648 = -596523
    ∧ timeMins 2147483648 = -14
    ∧ timeSecs 2147483648 = -8
    ∧ ¬ (timeHrs 2147483648 * 3600 + timeMins 2147483648 * 60 + timeSecs 2147483648
          = 2147483648
        ∧ 0 ≤ timeMins 2147483648 ∧ timeMins 2147483648 < 60
        ∧ 0 ≤ timeSecs 2147483648 ∧ timeSecs 2147483648 < 60) := by
  decide

/-- C18, amended : for a whole number `d` of elapsed seconds with
`0 ≤ d < 2147483648`, the values that `int` holds, the constructor's `hrs`,
`mins`, `secs` give `hrs * 3600 + mins * 60 + secs = d` with `0 ≤ mins < 60`
and `0 ≤ secs < 60`. -/
theorem time_decomposition (d : Int) (h0 : 0 ≤ d) (hd : d < 2147483648) :
    timeHrs d * 3600 + timeMins d * 60 + timeSecs d = d
    ∧ 0 ≤ timeMins d ∧ timeMins d < 60
    ∧ 0 ≤ timeSecs d ∧ timeSecs d < 60
    ∧ 0 ≤ timeHrs d := by
  have hc : castInt d = d := castInt_of_range d (by omega) hd
  have h1 : d.tdiv 3600 = d / 3600 := Int.tdiv_eq_ediv h0 (by decide)
  have h2 : d.tdiv 60 = d / 60 := Int.tdiv_eq_ediv h0 (by decide)
  simp only [timeSecs, timeMins, timeHrs, hc, h1, h2]
  refine ⟨by omega, by omega, by omega, by omega, by omega, by omega⟩

/-- Witness of C18 : 3725 seconds are 1 hour, 2 minutes and 5 seconds. -/
theorem time_decomposition_witness :
    (0 : Int) ≤ 3725 ∧ (3725 : Int) < 2147483648
    ∧ timeHrs 3725 * 3600 + timeMins 3725 * 60 + timeSecs 3725 = 3725
    ∧ 0 ≤ timeMins 3725 ∧ timeMins 3725 < 60
    ∧ 0 ≤ timeSecs 3725 ∧ timeSecs 3725 < 60 :=
  have h := time_decomposition 3725 (by decide) (by decide)
  ⟨by decide, by decide, h.1, h.2.1, h.2.2.1, h.2.2.2.1, h.2.2.2.2.1⟩

/-! ## The order of the two groups -/

theorem pairwise_take_drop {α : Type} {R : α → α → Prop} (l : List α) (k : Nat)
    (h : l.Pairwise R) : ∀ a ∈ l.take k, ∀ b ∈ l.drop k, R a b := by
  have h2 : (l.take k ++ l.drop k).Pairwise R := by
    rw [List.take_append_drop]
    exact h
  exact (List.pairwise_append.mp h2).2.2

theorem sahSorted_pairwise (E : Externals B Obj H) (objects : List Obj)
    (hdim : 0 ≤ E.maxExtent (unionBounds E objects)
      ∧ E.maxExtent (unionBounds E objects) ≤ 2) :
    (sahSorted E objects).Pairwise (fun a b =>
      coord (E.pMax (E.getBounds a)) (E.maxExtent (unionBounds E objects))
        ≤ coord (E.pMax (E.getBounds b)) (E.maxExtent (unionBounds E objects))) := by
  have hcases : E.maxExtent (unionBounds E objects) = 0
      ∨ E.maxExtent (unionBounds E objects) = 1
      ∨ E.maxExtent (unionBounds E objects) = 2 := by omega
  unfold sahSorted
  rcases hcases with h | h | h
  · rw [h]
    exact E.sort_sorted (fun o => (E.pMax (E.getBounds o)).x) objects
  · rw [h]
    exact E.sort_sorted (fun o => (E.pMax (E.getBounds o)).y) objects
  · rw [h]
    exact E.sort_sorted (fun o => (E.pMax (E.getBounds o)).z) objects

/-- C13 : for three or more primitives, when `maxExtent` of the union bounds
returns an axis (0, 1 or 2), every primitive of the left group of
`recursiveBuildWithSAH` has a maximum-corner coordinate on that axis no larger
than that of every primitive of the right group. -/
theorem sah_left_group_below_right_group (E : Externals B Obj H) (objects : List Obj)
    (_h3 : 3 ≤ objects.length)
    (hdim : 0 ≤ E.maxExtent (unionBounds E objects)
      ∧ E.maxExtent (unionBounds E objects) ≤ 2) :
    ∀ a ∈ sahLeftShapes E objects, ∀ b ∈ sahRightShapes E objects,
      coord (E.pMax (E.getBounds a)) (E.maxExtent (unionBounds E objects))
        ≤ coord (E.pMax (E.getBounds b)) (E.maxExtent (unionBounds E objects)) :=
  pairwise_take_drop (sahSorted E objects) (sahPartIndex E objects + 1)
    (sahSorted_pairwise E objects hdim)

namespace Stub

theorem threeBoxes_maxExtent : ext.maxExtent (unionBounds ext threeBoxes) = 0 := by
  rw [threeBoxes_bounds]
  simp [ext, maxExtent, Diagonal]
  norm_num

end Stub

/-- Witness of C13 on three boxes, whose union is longest along `x`. -/
theorem sah_left_group_below_right_group_witness :
    3 ≤ Stub.threeBoxes.length
    ∧ (0 ≤ Stub.ext.maxExtent (unionBounds Stub.ext Stub.threeBoxes)
      ∧ Stub.ext.maxExtent (unionBounds Stub.ext Stub.threeBoxes) ≤ 2)
    ∧ ∀ a ∈ sahLeftShapes Stub.ext Stub.threeBoxes,
      ∀ b ∈ sahRightShapes Stub.ext Stub.threeBoxes,
        coord (Stub.ext.pMax (Stub.ext.getBounds a))
            (Stub.ext.maxExtent (unionBounds Stub.ext Stub.threeBoxes))
          ≤ coord (Stub.ext.pMax (Stub.ext.getBounds b))
            (Stub.ext.maxExtent (unionBounds Stub.ext Stub.threeBoxes)) :=
  have h3 : 3 ≤ Stub.threeBoxes.length := by simp [Stub.threeBoxes]
  have hdim : 0 ≤ Stub.ext.maxExtent (unionBounds Stub.ext Stub.threeBoxes)
      ∧ Stub.ext.maxExtent (unionBounds Stub.ext Stub.threeBoxes) ≤ 2 := by
    rw [Stub.threeBoxes_maxExtent]
    decide
  ⟨h3, hdim, sah_left_group_below_right_group Stub.ext Stub.threeBoxes h3 hdim⟩

/-! ## Identical boxes : a tree as deep as the list is long -/

theorem foldl_union_replicate {E : Externals B Obj H} (hU : UnionLaws E) (a : Obj)
    (m : Nat) :
    (List.replicate m a).foldl (fun bounds o => E.Union bounds (E.getBounds o))
      (E.getBounds a) = E.getBounds a := by
  induction m with
  | zero => rfl
  | succ m ih =>
    rw [List.replicate_succ, List.foldl_cons, hU.idem]
    exact ih

theorem unionBounds_replicate {E : Externals B Obj H} (hU : UnionLaws E) (a : Obj)
    (m : Nat) (hm : 0 < m) : unionBounds E (List.replicate m a) = E.getBounds a := by
  obtain ⟨k, rfl⟩ : ∃ k, m = k + 1 := ⟨m - 1, by omega⟩
  unfold unionBounds
  rw [List.replicate_succ, List.foldl_cons, hU.identity]
  exact foldl_union_replicate hU a k

theorem sahSorted_replicate (E : Externals B Obj H) (a : Obj) (n : Nat) :
    sahSorted E (List.replicate n a) = List.replicate n a :=
  List.perm_replicate.mp (sahSorted_perm E (List.replicate n a))

theorem sahCost_replicate {E : Externals B Obj H} (hU : UnionLaws E) (a : Obj)
    (bounds : B) (n k : Nat) (hk : k + 1 < n) :
    sahCost E bounds (List.replicate n a) k
      = E.SurfaceArea (E.getBounds a) / E.SurfaceArea bounds * (n : ℚ) := by
  unfold sahCost
  simp only [List.take_replicate, List.drop_replicate, List.length_replicate]
  rw [unionBounds_replicate hU a _ (by omega), unionBounds_replicate hU a _ (by omega),
    Nat.cast_sub (by omega)]
  ring

theorem sahStep_fold_const (E : Externals B Obj H) (bounds : B) (objects : List Obj)
    (c : ℚ) (ks : List Nat) (st : Nat × ℚ)
    (hc : ∀ k ∈ ks, sahCost E bounds objects k = c) (hst : ¬ c < st.2) :
    ks.foldl (sahStep E bounds objects) st = st := by
  induction ks with
  | nil => rfl
  | cons k ks ih =>
    rw [List.foldl_cons]
    have hk : sahStep E bounds objects st k = st := by
      unfold sahStep
      rw [hc k (List.mem_cons_self _ _), if_neg hst]
    rw [hk]
    exact ih (fun j hj => hc j (List.mem_cons_of_mem _ hj))

theorem sahStep_fold_first (E : Externals B Obj H) (bounds : B) (objects : List Obj)
    (c : ℚ) (k0 : Nat) (ks : List Nat) (st : Nat × ℚ)
    (hc : ∀ k ∈ k0 :: ks, sahCost E bounds objects k = c) :
    ((k0 :: ks).foldl (sahStep E bounds objects) st).1 = k0
      ∨ ((k0 :: ks).foldl (sahStep E bounds objects) st).1 = st.1 := by
  have hrest : ∀ k ∈ ks, sahCost E bounds objects k = c :=
    fun j hj => hc j (List.mem_cons_of_mem _ hj)
  rw [List.foldl_cons]
  by_cases hlt : c < st.2
  · have hk : sahStep E bounds objects st k0 = (k0, c) := by
      unfold sahStep
      rw [hc k0 (List.mem_cons_self _ _), if_pos hlt]
    rw [hk, sahStep_fold_const E bounds objects c ks (k0, c) hrest (lt_irrefl c)]
    exact Or.inl rfl
  · have hk : sahStep E bounds objects st k0 = st := by
      unfold sahStep
      rw [hc k0 (List.mem_cons_self _ _), if_neg hlt]
    rw [hk, sahStep_fold_const E bounds objects c ks st hrest hlt]
    exact Or.inr rfl

theorem sahPartIndex_replicate {E : Externals B Obj H} (hU : UnionLaws E) (a : Obj)
    (n : Nat) (hn : 2 ≤ n) : sahPartIndex E (List.replicate n a) = 0 := by
  unfold sahPartIndex sahLoop
  rw [sahSorted_replicate, List.length_replicate]
  obtain ⟨m, hm⟩ : ∃ m, n - 1 = m + 1 := ⟨n - 2, by omega⟩
  have hc : ∀ k ∈ List.range (n - 1),
      sahCost E (unionBounds E (List.replicate n a)) (List.replicate n a) k
        = E.SurfaceArea (E.getBounds a)
            / E.SurfaceArea (unionBounds E (List.replicate n a)) * (n : ℚ) := by
    intro k hk
    exact sahCost_replicate hU a _ n k (by have := List.mem_range.mp hk; omega)
  rw [hm, List.range_succ_eq_map] at hc ⊢
  rcases sahStep_fold_first E _ _ _ 0 _ (0, DBL_MAX) hc with h | h
  · exact h
  · exact h

theorem sahLeftShapes_replicate {E : Externals B Obj H} (hU : UnionLaws E) (a : Obj)
    (n : Nat) (hn : 2 ≤ n) : sahLeftShapes E (List.replicate n a) = [a] := by
  unfold sahLeftShapes
  rw [sahSorted_replicate, sahPartIndex_replicate hU a n hn, List.take_replicate]
  have : min (0 + 1) n = 1 := by omega
  rw [this]
  rfl

theorem sahRightShapes_replicate {E : Externals B Obj H} (hU : UnionLaws E) (a : Obj)
    (n : Nat) (hn : 2 ≤ n) :
    sahRightShapes E (List.replicate n a) = List.replicate (n - 1) a := by
  unfold sahRightShapes
  rw [sahSorted_replicate, sahPartIndex_replicate hU a n hn, List.drop_replicate]

/-- C14 : with box union idempotent and the default box its identity, for
every `n ≥ 1` the list of `n` copies of one primitive, which are `n`
primitives with identical bounds, makes `recursiveBuildWithSAH` return a tree
of depth `n - 1`. -/
theorem sah_depth_linear_on_identical_boxes (E : Externals B Obj H) (hU : UnionLaws E)
    (a : Obj) (n : Nat) (hn : 1 ≤ n) :
    (List.replicate n a).length = n
    ∧ ∃ t, recursiveBuildWithSAH E (List.replicate n a) = some t ∧ depth t = n - 1 := by
  refine ⟨List.length_replicate n a, ?_⟩
  induction n, hn using Nat.le_induction with
  | base =>
    exact ⟨_, recursiveBuildWithSAH_one E a, by simp [depth, BVHBuildNode.isNull]⟩
  | succ m hm ih =>
    obtain ⟨t, ht, hd⟩ := ih
    by_cases h2 : m = 1
    · subst h2
      exact ⟨_, recursiveBuildWithSAH_two E a a, by simp [depth, BVHBuildNode.isNull]⟩
    · have h3 : 3 ≤ (List.replicate (m + 1) a).length := by
        rw [List.length_replicate]; omega
      refine ⟨.node (unionBounds E (List.replicate (m + 1) a))
        (.node (E.getBounds a) .nil .nil (some a)) t none, ?_, ?_⟩
      · rw [recursiveBuildWithSAH_many E _ h3, sahLeftShapes_replicate hU a (m + 1) (by omega),
          sahRightShapes_replicate hU a (m + 1) (by omega), recursiveBuildWithSAH_one]
        simp only [Nat.add_sub_cancel]
        rw [ht]
        rfl
      · rw [depth_internal _ (.node (E.getBounds a) .nil .nil (some a)) t none rfl, hd]
        simp [depth, BVHBuildNode.isNull]
        omega

/-- Witness of C14 : four copies of the unit cube give a tree of depth 3. -/
theorem sah_depth_linear_on_identical_boxes_witness :
    UnionLaws Stub.ext ∧ 1 ≤ 4
    ∧ (Stub.sameBoxes 4).length = 4
    ∧ ∃ t, recursiveBuildWithSAH Stub.ext (Stub.sameBoxes 4) = some t ∧ depth t = 4 - 1 :=
  have h := sah_depth_linear_on_identical_boxes Stub.ext Stub.unionLaws
    (Stub.miss (Stub.cube 0 0 0 1)) 4 (by decide)
  ⟨Stub.unionLaws, by decide, h.1, h.2⟩

/-! ## The two builders differ -/

namespace Stub

theorem threeBoxes_partIndex : sahPartIndex ext threeBoxes = 1 := by
  unfold sahPartIndex
  rw [threeBoxes_sorted, threeBoxes_bounds]
  simp [sahLoop, threeBoxes, List.range, List.range.loop, sahStep, sahCost,
    unionBounds, ext, Union, SurfaceArea, Diagonal, miss,
    cube, vmin, vmax, DBL_MAX]
  norm_num

theorem threeBoxes_sahLeftShapes :
    sahLeftShapes ext threeBoxes = [miss (cube 0 0 0 4), miss (cube 4 0 0 1)] := by
  unfold sahLeftShapes
  rw [threeBoxes_sorted, threeBoxes_partIndex]
  rfl

theorem threeBoxes_medianLeftShapes :
    medianLeftShapes ext threeBoxes = [miss (cube 0 0 0 4)] := by
  have hs : medianSorted ext threeBoxes = threeBoxes := by
    unfold medianSorted
    simp [centroidBounds, threeBoxes, ext, UnionPoint, Union, Centroid, maxExtent, Diagonal,
      sort, miss, cube, vmin, vmax, List.insertionSort, List.orderedInsert]
    norm_num
  unfold medianLeftShapes
  rw [hs]
  rfl

/-- On three boxes `recursiveBuildWithSAH`, which the constructor calls, and
`recursiveBuild` return different trees : the first puts two boxes on the left,
the second one. -/
theorem threeBoxes_trees_differ :
    recursiveBuildWithSAH ext threeBoxes ≠ recursiveBuild ext threeBoxes := by
  intro h
  have h3 : 3 ≤ threeBoxes.length := by simp [threeBoxes]
  obtain ⟨tl, htl, _⟩ := recursiveBuild_induction ext (fun _ _ => True)
    (fun _ => trivial) (fun _ _ => trivial) (fun _ _ _ _ _ _ _ _ _ _ _ _ => trivial)
    (medianRightShapes ext threeBoxes)
    (List.ne_nil_of_length_pos (by rw [medianRightShapes_length]; simp [threeBoxes]))
  obtain ⟨tr, htr, _⟩ := recursiveBuildWithSAH_induction ext (fun _ _ => True)
    (fun _ => trivial) (fun _ _ => trivial) (fun _ _ _ _ _ _ _ _ => trivial)
    (sahRightShapes ext threeBoxes)
    (List.ne_nil_of_length_pos (by rw [sahRightShapes_length, threeBoxes_partIndex]; simp [threeBoxes]))
  have hbr := recursiveBuild_isNull ext _ _ htl
  rw [recursiveBuildWithSAH_many ext _ h3, recursiveBuild_many ext _ h3,
    threeBoxes_sahLeftShapes, threeBoxes_medianLeftShapes, recursiveBuildWithSAH_two,
    recursiveBuild_one, htl, htr] at h
  cases tl with
  | nil => simp [BVHBuildNode.isNull] at hbr
  | node b l r o =>
    simp [BVHBuildNode.bounds?] at h

end Stub

end BVH
